import Mathlib

/-!
# OpenMeshEffect host: the parameter suite (`parameters.c`)

A shallow embedding of `intern/openmesheffect/host/intern/parameters.c`.

The C code works on heap objects through pointers, so the embedding passes an
explicit heap.  The heap is split by element type (C never casts between
them here): `char` arrays, `OfxParamStruct` objects and arrays of
`OfxParamStruct*`.  An address is the index of a block in its region;
`malloc_array` appends a block, so a new address is different from every
address handed out before.  `free_array` counts the frees of a block, and a
block that has been freed can no longer be read or written.  A null pointer
is `none`.  Operations whose C behaviour is undefined (null or dangling
dereference, a write past the end of a block, reading a string that is not
terminated inside its block, reading a union member that was not the one
written, a missing or ill-typed variadic argument) give `none`.

A C string is modelled by the `String` of its characters before the
terminating zero, `strlen` by its length.
-/

namespace OpenMeshEffect

/-! ## Data model -/

/-- An address inside one region of the heap. -/
abbrev Addr := Nat

/-- Modelled from the spec: the type tag of a parameter, declared in
`parameters.h` (not part of the sources at hand); the four enumerators are
the ones `parameters.c` switches over. -/
inductive ParamType
  | PARAM_TYPE_DOUBLE
  | PARAM_TYPE_INT
  | PARAM_TYPE_STRING
  | PARAM_TYPE_UNKNOWN
  deriving DecidableEq, Repr

/-- Modelled from the spec: the status taxonomy of the OpenFX header
`ofxCore.h` (not part of the sources at hand), restricted to the four codes
that `parameters.c` returns; they are pairwise different codes. -/
inductive OfxStatus
  | kOfxStatOK
  | kOfxStatErrUnknown
  | kOfxStatErrExists
  | kOfxStatErrUnsupported
  deriving DecidableEq, Repr

/-- Modelled from the spec: the three type-name string constants of the OpenFX
header `ofxParam.h` (not part of the sources at hand), taken as a parameter of
`parse_parameter_type`. -/
structure ParamTypeNames where
  kOfxParamTypeDouble : String
  kOfxParamTypeInteger : String
  kOfxParamTypeString : String
  deriving DecidableEq, Repr

/-- The values the OpenFX header gives to the three type names. -/
def ofxParamTypeNames : ParamTypeNames :=
  { kOfxParamTypeDouble := "OfxParamTypeDouble"
    kOfxParamTypeInteger := "OfxParamTypeInteger"
    kOfxParamTypeString := "OfxParamTypeString" }

/-- The three type names are pairwise different strings. -/
def ParamTypeNames.Distinct (k : ParamTypeNames) : Prop :=
  k.kOfxParamTypeDouble ≠ k.kOfxParamTypeInteger ∧
  k.kOfxParamTypeDouble ≠ k.kOfxParamTypeString ∧
  k.kOfxParamTypeInteger ≠ k.kOfxParamTypeString

instance (k : ParamTypeNames) : Decidable k.Distinct := by
  unfold ParamTypeNames.Distinct; infer_instance

/-- A C `double`, kept as its 64-bit pattern: the code only stores and loads
doubles, it never computes with them. -/
structure Double where
  bits : Nat
  deriving DecidableEq, Repr

/-- One slot of the `value` array: a C union of `as_double`, `as_int` and
`as_char`.  The constructor records which member was written last;
`indeterminate` is a slot never written since `malloc_array`. -/
inductive ParamValue
  | indeterminate
  | as_double (d : Double)
  | as_int (i : Int)
  | as_char (p : Option Addr)
  deriving DecidableEq, Repr

/-- Modelled from the spec: the metadata bag of `properties.h` (not part of the
sources at hand).  The parameter suite never looks inside it; only its
lifecycle is used: `init_properties` gives the empty bag and
`deep_copy_property_set` an independent bag with the same entries. -/
structure OfxPropertySetStruct where
  entries : List (String × String)
  deriving DecidableEq, Repr

/-- Modelled from the spec: `init_properties` of `properties.h`: the empty
bag. -/
def init_properties : OfxPropertySetStruct := { entries := [] }

/-- Modelled from the spec: `deep_copy_property_set` of `properties.h`: the
destination bag gets the entries of the source bag. -/
def deep_copy_property_set (source : OfxPropertySetStruct) : OfxPropertySetStruct :=
  { entries := source.entries }

/-- An `OfxPropertySetHandle`: either the address `&param->properties` of the
bag embedded in the parameter object at `p`, or a bag that lives outside the
parameter suite (the effect's own bag). -/
inductive OfxPropertySetHandle
  | of_param (p : Addr)
  | external (a : Addr)
  deriving DecidableEq, Repr

/-- The C struct `OfxParamStruct`; `name` is a `char*`, `value` has four
slots. -/
structure OfxParamStruct where
  type : ParamType
  name : Option Addr
  value0 : ParamValue
  value1 : ParamValue
  value2 : ParamValue
  value3 : ParamValue
  properties : OfxPropertySetStruct
  deriving DecidableEq, Repr

/-- The C struct `OfxParamSetStruct`; `parameters` is an `OfxParamStruct**`. -/
structure OfxParamSetStruct where
  num_parameters : Int
  parameters : Option Addr
  effect_properties : Option OfxPropertySetHandle
  deriving DecidableEq, Repr

/-- A block of `char`: its capacity in bytes, the C string it holds (`none`
while nothing has been written) and how often it was freed.  A string lies
inside the block, terminator included, when `CharArray.Fits` holds; a string
is only ever written to a block that it fits. -/
structure CharArray where
  cap : Nat
  text : Option String
  frees : Nat
  deriving DecidableEq, Repr

/-- A block holding one `OfxParamStruct`. -/
structure ParamBlock where
  obj : OfxParamStruct
  frees : Nat
  deriving DecidableEq, Repr

/-- A block holding an array of `OfxParamStruct*`; an element is `none` until
it is assigned. -/
structure PtrArray where
  elems : List (Option Addr)
  frees : Nat
  deriving DecidableEq, Repr

/-- The heap, one region per element type. -/
structure Heap where
  chars : List CharArray
  params : List ParamBlock
  arrays : List PtrArray
  deriving DecidableEq, Repr

/-- The string and its terminating zero byte lie inside the block. -/
def CharArray.Fits (c : CharArray) : Prop :=
  match c.text with
  | some s => s.length + 1 ≤ c.cap
  | none => True

instance (c : CharArray) : Decidable c.Fits := by
  unfold CharArray.Fits; cases c.text <;> infer_instance

/-! ## Memory primitives -/

/-- The C function `strlen`. -/
def strlen (s : String) : Nat := s.length

/-- The comparison loop of `strcmp` on the characters before the terminator:
the first position where the strings differ decides. -/
def strcmp_chars : List Char → List Char → Int
  | [], [] => 0
  | [], _ :: _ => -1
  | _ :: _, [] => 1
  | a :: as, b :: bs =>
    if a.toNat < b.toNat then -1
    else if b.toNat < a.toNat then 1
    else strcmp_chars as bs

/-- The C function `strcmp`: zero on equal strings, otherwise the sign of the
comparison at the first difference. -/
def strcmp (a b : String) : Int := strcmp_chars a.data b.data

/-- Modelled from the spec: `malloc_array(sizeof(char), count, label)` of
`util/memory_util.h` (not part of the sources at hand): a new block of `count`
bytes with indeterminate content. -/
def malloc_array_char (h : Heap) (count : Nat) : Heap × Addr :=
  ({ h with chars := h.chars ++ [{ cap := count, text := none, frees := 0 }] }, h.chars.length)

/-- The content of an `OfxParamStruct` that was allocated and not yet
initialised: `init_parameter` overwrites `type`, `name` and `properties`, the
four value slots stay indeterminate. -/
def fresh_param : OfxParamStruct :=
  { type := ParamType.PARAM_TYPE_UNKNOWN
    name := none
    value0 := ParamValue.indeterminate
    value1 := ParamValue.indeterminate
    value2 := ParamValue.indeterminate
    value3 := ParamValue.indeterminate
    properties := { entries := [] } }

/-- Modelled from the spec: `malloc_array(sizeof(OfxParamStruct), 1, label)` of
`util/memory_util.h`: a new block for one parameter object. -/
def malloc_array_param (h : Heap) : Heap × Addr :=
  ({ h with params := h.params ++ [{ obj := fresh_param, frees := 0 }] }, h.params.length)

/-- Modelled from the spec: `malloc_array(sizeof(OfxParamStruct*), count, label)`
of `util/memory_util.h`: a new array of `count` unassigned pointers. -/
def malloc_array_ptr (h : Heap) (count : Nat) : Heap × Addr :=
  ({ h with arrays := h.arrays ++ [{ elems := List.replicate count none, frees := 0 }] },
    h.arrays.length)

/-- Modelled from the spec: `free_array` of `util/memory_util.h` on a `char`
block: the free is counted; freeing an address that was never allocated is
undefined. -/
def free_array_char (h : Heap) (a : Addr) : Option Heap :=
  match h.chars[a]? with
  | some c => some { h with chars := h.chars.set a { c with frees := c.frees + 1 } }
  | none => none

/-- Modelled from the spec: `free_array` of `util/memory_util.h` on a pointer
array. -/
def free_array_ptr (h : Heap) (a : Addr) : Option Heap :=
  match h.arrays[a]? with
  | some c => some { h with arrays := h.arrays.set a { c with frees := c.frees + 1 } }
  | none => none

/-- Read the parameter object at `p` (it must be allocated and not freed). -/
def load_param (h : Heap) (p : Addr) : Option OfxParamStruct :=
  match h.params[p]? with
  | some b => if b.frees = 0 then some b.obj else none
  | none => none

/-- Write the parameter object at `p` (it must be allocated and not freed). -/
def store_param (h : Heap) (p : Addr) (v : OfxParamStruct) : Option Heap :=
  match h.params[p]? with
  | some b =>
    if b.frees = 0 then some { h with params := h.params.set p { b with obj := v } } else none
  | none => none

/-- Read the C string held by the `char` block at `a`: the block must be
allocated and not freed, and the string and its terminator must lie inside
it. -/
def load_string (h : Heap) (a : Addr) : Option String :=
  match h.chars[a]? with
  | some c => if c.frees = 0 ∧ c.Fits then c.text else none
  | none => none

/-- Write the C string `s` (characters and terminator) from the start of the
`char` block at `a`; this is what `strcpy(a, s)` and `a[0] = 0` do.  The
bytes written, one per character and one for the terminator, must lie inside
the block: a write past its end is undefined. -/
def store_string (h : Heap) (a : Addr) (s : String) : Option Heap :=
  match h.chars[a]? with
  | some c =>
    if c.frees = 0 ∧ s.length + 1 ≤ c.cap then
      some { h with chars := h.chars.set a { c with text := some s } }
    else none
  | none => none

/-- Read element `i` of the pointer array `arr`: the C expression `arr[i]`. -/
def load_elem (h : Heap) (arr : Option Addr) (i : Nat) : Option Addr :=
  match arr with
  | none => none
  | some a =>
    match h.arrays[a]? with
    | some b => if b.frees = 0 then (b.elems[i]?).join else none
    | none => none

/-- Assign element `i` of the pointer array at `a`: `arr[i] = p`. -/
def store_elem (h : Heap) (a : Addr) (i : Nat) (p : Addr) : Option Heap :=
  match h.arrays[a]? with
  | some b =>
    if b.frees = 0 ∧ i < b.elems.length then
      some { h with arrays := h.arrays.set a { b with elems := b.elems.set i (some p) } }
    else none
  | none => none

/-- The string `param_set->parameters[i]->name` as `strcmp` reads it. -/
def entry_name (h : Heap) (param_set : OfxParamSetStruct) (i : Nat) : Option String := do
  let p ← load_elem h param_set.parameters i
  let obj ← load_param h p
  let n ← obj.name
  load_string h n

/-! ## `parameters.c` -/

/-- The C function `init_parameter`, on the object at `param`. -/
def init_parameter (h : Heap) (param : Addr) : Option Heap := do
  let obj ← load_param h param
  store_param h param
    { obj with type := ParamType.PARAM_TYPE_DOUBLE, name := none, properties := init_properties }

/-- The loop of `find_parameter`: `n` iterations are left, the next index is
`i`. -/
def find_parameter_loop (h : Heap) (param_set : OfxParamSetStruct) (param : String) :
    Nat → Nat → Option Int
  | _, 0 => some (-1)
  | i, n + 1 => do
    let name ← entry_name h param_set i
    if 0 = strcmp name param then some (i : Int)
    else find_parameter_loop h param_set param (i + 1) n

/-- The C function `find_parameter`. -/
def find_parameter (h : Heap) (param_set : OfxParamSetStruct) (param : String) : Option Int :=
  find_parameter_loop h param_set param 0 param_set.num_parameters.toNat

/-- Read a slot through its union member `as_char`. -/
def ParamValue.read_as_char : ParamValue → Option (Option Addr)
  | ParamValue.as_char p => some p
  | _ => none

/-- Read a slot through its union member `as_double`. -/
def ParamValue.read_as_double : ParamValue → Option Double
  | ParamValue.as_double d => some d
  | _ => none

/-- Read a slot through its union member `as_int`. -/
def ParamValue.read_as_int : ParamValue → Option Int
  | ParamValue.as_int i => some i
  | _ => none

/-- The C expression `param->value[i]`, for an index inside the array. -/
def OfxParamStruct.get_value (obj : OfxParamStruct) : Nat → Option ParamValue
  | 0 => some obj.value0
  | 1 => some obj.value1
  | 2 => some obj.value2
  | 3 => some obj.value3
  | _ => none

/-- The C assignment `param->value[i] = v`, for an index inside the array. -/
def OfxParamStruct.set_value (obj : OfxParamStruct) (v : ParamValue) :
    Nat → Option OfxParamStruct
  | 0 => some { obj with value0 := v }
  | 1 => some { obj with value1 := v }
  | 2 => some { obj with value2 := v }
  | 3 => some { obj with value3 := v }
  | _ => none

/-- An assignment to fields of the object at `p`: read, change, write back. -/
def modify_param (h : Heap) (p : Addr) (f : OfxParamStruct → OfxParamStruct) : Option Heap := do
  let obj ← load_param h p
  store_param h p (f obj)

/-- The C expression `param->name` used as a string: the pointer must not be
null. -/
def name_ptr (h : Heap) (param : Addr) : Option Addr := do
  let obj ← load_param h param
  obj.name

/-- The C expression `param->value[0].as_char` used as a string: the slot
must hold a pointer, and not the null pointer. -/
def text_ptr (h : Heap) (param : Addr) : Option Addr := do
  let obj ← load_param h param
  let p ← obj.value0.read_as_char
  p

/-- The C function `parameter_realloc_string`; a negative `size` is not a size
`malloc_array` can serve. -/
def parameter_realloc_string (h : Heap) (param : Addr) (size : Int) : Option Heap := do
  let obj ← load_param h param
  let old ← obj.value0.read_as_char
  let h1 ← match old with
    | some a => free_array_char h a
    | none => some h
  if size < 0 then none else
  let (h2, buf) := malloc_array_char h1 size.toNat
  let h3 ← modify_param h2 param (fun o => { o with value0 := ParamValue.as_char (some buf) })
  let b ← text_ptr h3 param
  store_string h3 b ""

/-- The C function `parameter_set_type`; `free_array` is called on the text
pointer without a null test, so a null pointer there is undefined. -/
def parameter_set_type (h : Heap) (param : Addr) (type : ParamType) : Option Heap := do
  let obj ← load_param h param
  if obj.type = type then some h else
  let h1 ← if ParamType.PARAM_TYPE_STRING = obj.type then (do
      let old ← obj.value0.read_as_char
      let a ← old
      let hf ← free_array_char h a
      modify_param hf param (fun o => { o with value0 := ParamValue.as_char none }))
    else some h
  let h2 ← modify_param h1 param (fun o => { o with type := type })
  let obj2 ← load_param h2 param
  if ParamType.PARAM_TYPE_STRING = obj2.type then do
    let h3 ← modify_param h2 param (fun o => { o with value0 := ParamValue.as_char none })
    parameter_realloc_string h3 param 1
  else some h2

/-- The statement `destination->name = malloc_array(sizeof(char),
strlen(source->name), ...)` of `deep_copy_parameter`. -/
def deep_copy_parameter_name_alloc (h : Heap) (destination source : Addr) : Option Heap := do
  let sn ← name_ptr h source
  let s ← load_string h sn
  let (ha, buf) := malloc_array_char h (strlen s)
  modify_param ha destination (fun o => { o with name := some buf })

/-- The statement `strcpy(destination->name, source->name)` of
`deep_copy_parameter`. -/
def deep_copy_parameter_name_strcpy (h : Heap) (destination source : Addr) : Option Heap := do
  let d ← name_ptr h destination
  let snb ← name_ptr h source
  let sb ← load_string h snb
  store_string h d sb

/-- The name part of `deep_copy_parameter`: the assignment of `name` and, for
a non-null name, the new buffer of `strlen` bytes and the `strcpy` into it. -/
def deep_copy_parameter_name (h : Heap) (destination source : Addr) : Option Heap := do
  let src ← load_param h source
  let h1 ← modify_param h destination (fun o => { o with name := src.name })
  let dst1 ← load_param h1 destination
  match dst1.name with
  | some _ => do
    let hb ← deep_copy_parameter_name_alloc h1 destination source
    deep_copy_parameter_name_strcpy hb destination source
  | none => some h1

/-- The part of `deep_copy_parameter` that copies `type` and the four value
slots. -/
def deep_copy_parameter_slots (h : Heap) (destination source : Addr) : Option Heap := do
  let src2 ← load_param h source
  let h3 ← modify_param h destination (fun o => { o with type := src2.type })
  let src3 ← load_param h3 source
  let h4 ← modify_param h3 destination (fun o => { o with value0 := src3.value0 })
  let src4 ← load_param h4 source
  let h5 ← modify_param h4 destination (fun o => { o with value1 := src4.value1 })
  let src5 ← load_param h5 source
  let h6 ← modify_param h5 destination (fun o => { o with value2 := src5.value2 })
  let src6 ← load_param h6 source
  modify_param h6 destination (fun o => { o with value3 := src6.value3 })

/-- The string part of `deep_copy_parameter`: for a destination of type
string, a new buffer of `strlen + 1` bytes and the `strcpy` into it. -/
def deep_copy_parameter_text (h : Heap) (destination source : Addr) : Option Heap := do
  let dst7 ← load_param h destination
  if dst7.type = ParamType.PARAM_TYPE_STRING then do
    let sa ← text_ptr h source
    let s ← load_string h sa
    let n : Int := Int.ofNat (strlen s)
    let ha ← modify_param h destination (fun o => { o with value0 := ParamValue.as_char none })
    let hb ← parameter_realloc_string ha destination (n + 1)
    let d ← text_ptr hb destination
    let sab ← text_ptr hb source
    let sb ← load_string hb sab
    store_string hb d sb
  else some h

/-- The C function `deep_copy_parameter`: name, then type and value slots,
then the string buffer, then the metadata bag. -/
def deep_copy_parameter (h : Heap) (destination source : Addr) : Option Heap := do
  let h2 ← deep_copy_parameter_name h destination source
  let h7 ← deep_copy_parameter_slots h2 destination source
  let h8 ← deep_copy_parameter_text h7 destination source
  let src8 ← load_param h8 source
  modify_param h8 destination
    (fun o => { o with properties := deep_copy_property_set src8.properties })

/-- The loop of `append_parameters`: `n` iterations are left, the next index
is `i`; `arr` is the new array. -/
def append_parameters_loop (old_num_parameters : Int) (old_parameters : Option Addr)
    (arr : Addr) : Heap → Nat → Nat → Option Heap
  | h, _, 0 => some h
  | h, i, n + 1 => do
    let h1 ← if (i : Int) < old_num_parameters then (do
        let p ← load_elem h old_parameters i
        store_elem h arr i p)
      else (do
        let (ha, p) := malloc_array_param h
        let hb ← store_elem ha arr i p
        let q ← load_elem hb (some arr) i
        init_parameter hb q)
    append_parameters_loop old_num_parameters old_parameters arr h1 (i + 1) n

/-- The C function `append_parameters`; a negative new total is not a size
`malloc_array` can serve. -/
def append_parameters (h : Heap) (param_set : OfxParamSetStruct) (count : Int) :
    Option (Heap × OfxParamSetStruct) := do
  let old_num_parameters := param_set.num_parameters
  let old_parameters := param_set.parameters
  let num := param_set.num_parameters + count
  if num < 0 then none else
  let (h1, arr) := malloc_array_ptr h num.toNat
  let ps1 : OfxParamSetStruct := { param_set with num_parameters := num, parameters := some arr }
  let h2 ← append_parameters_loop old_num_parameters old_parameters arr h1 0 num.toNat
  let h3 ← match old_parameters with
    | some a => free_array_ptr h2 a
    | none => some h2
  some (h3, ps1)

/-- The first three statements of the branch of `ensure_parameter` that adds
an entry: `append_parameters(param_set, 1)`, the index of the new entry and
`param_set->parameters[i]->name = malloc_array(sizeof(char),
strlen(parameter), ...)`. -/
def ensure_parameter_alloc (h : Heap) (param_set : OfxParamSetStruct) (parameter : String) :
    Option (Heap × OfxParamSetStruct × Int) := do
  let (h1, ps1) ← append_parameters h param_set 1
  let i := ps1.num_parameters - 1
  if i < 0 then none else
  let p ← load_elem h1 ps1.parameters i.toNat
  let (h2, buf) := malloc_array_char h1 (strlen parameter)
  let h3 ← modify_param h2 p (fun o => { o with name := some buf })
  some (h3, ps1, i)

/-- The statement `strcpy(param_set->parameters[i]->name, parameter)` of
`ensure_parameter`. -/
def ensure_parameter_strcpy (h : Heap) (param_set : OfxParamSetStruct) (i : Int)
    (parameter : String) : Option Heap := do
  let q ← load_elem h param_set.parameters i.toNat
  let d ← name_ptr h q
  store_string h d parameter

/-- The C function `ensure_parameter`: the new heap, the registry and the
returned index. -/
def ensure_parameter (h : Heap) (param_set : OfxParamSetStruct) (parameter : String) :
    Option (Heap × OfxParamSetStruct × Int) := do
  let i ← find_parameter h param_set parameter
  if i = -1 then do
    let (h3, ps1, i) ← ensure_parameter_alloc h param_set parameter
    let h4 ← ensure_parameter_strcpy h3 ps1 i parameter
    some (h4, ps1, i)
  else some (h, param_set, i)

/-- The C function `init_parameter_set`. -/
def init_parameter_set (_param_set : OfxParamSetStruct) : OfxParamSetStruct :=
  { num_parameters := 0, parameters := none, effect_properties := none }

/-- The loop of `deep_copy_parameter_set`: `n` iterations are left, the next
index is `i`. -/
def deep_copy_parameter_set_loop (destination source : OfxParamSetStruct) :
    Heap → Nat → Nat → Option Heap
  | h, _, 0 => some h
  | h, i, n + 1 => do
    let d ← load_elem h destination.parameters i
    let s ← load_elem h source.parameters i
    let h1 ← deep_copy_parameter h d s
    deep_copy_parameter_set_loop destination source h1 (i + 1) n

/-- The C function `deep_copy_parameter_set`.  Its two arguments are pointers
and may designate the same registry, so the registries live in the list `sets`
and the arguments are positions in it; the result is the new heap and the list
with `*destination` updated.  `*source` is read after the writes to
`*destination` that precede the read in the code. -/
def deep_copy_parameter_set (h : Heap) (sets : List OfxParamSetStruct)
    (destination source : Addr) : Option (Heap × List OfxParamSetStruct) := do
  let d ← sets[destination]?
  let sets1 := sets.set destination (init_parameter_set d)
  let d1 ← sets1[destination]?
  let s1 ← sets1[source]?
  let (h1, d2) ← append_parameters h d1 s1.num_parameters
  let sets2 := sets1.set destination d2
  let s2 ← sets2[source]?
  let h2 ← deep_copy_parameter_set_loop d2 s2 h1 0 d2.num_parameters.toNat
  some (h2, sets2.set destination { d2 with effect_properties := s2.effect_properties })

/-- The C function `parse_parameter_type`. -/
def parse_parameter_type (k : ParamTypeNames) (str : String) : ParamType :=
  if 0 = strcmp str k.kOfxParamTypeDouble then ParamType.PARAM_TYPE_DOUBLE
  else if 0 = strcmp str k.kOfxParamTypeInteger then ParamType.PARAM_TYPE_INT
  else if 0 = strcmp str k.kOfxParamTypeString then ParamType.PARAM_TYPE_STRING
  else ParamType.PARAM_TYPE_UNKNOWN

/-- The C function `parameter_type_dimensions`. -/
def parameter_type_dimensions (type : ParamType) : Nat :=
  match type with
  | ParamType.PARAM_TYPE_DOUBLE => 1
  | ParamType.PARAM_TYPE_INT => 1
  | ParamType.PARAM_TYPE_STRING => 1
  | _ => 1

/-- A pointer to an output variable of type `α`: `none` is the null pointer,
`some v` a variable that currently holds `v`. -/
abbrev OutPtr (α : Type) := Option α

/-- An `OfxParamHandle`: a pointer to a parameter object, possibly null. -/
abbrev OfxParamHandle := Option Addr

/-- What `paramDefine` gives back: the heap, the registry, the status and the
output variable behind `propertySet`. -/
structure DefineResult where
  heap : Heap
  paramSet : OfxParamSetStruct
  status : OfxStatus
  propertySet : OutPtr (Option OfxPropertySetHandle)
  deriving DecidableEq, Repr

/-- The C function `paramDefine`. -/
def paramDefine (k : ParamTypeNames) (h : Heap) (paramSet : OfxParamSetStruct)
    (paramType name : String) (propertySet : OutPtr (Option OfxPropertySetHandle)) :
    Option DefineResult := do
  let i ← find_parameter h paramSet name
  if -1 ≠ i then
    some { heap := h, paramSet := paramSet, status := OfxStatus.kOfxStatErrExists,
           propertySet := propertySet }
  else do
    let (h1, ps1, i) ← ensure_parameter h paramSet name
    if i < 0 then none else
    let p ← load_elem h1 ps1.parameters i.toNat
    let h2 ← parameter_set_type h1 p (parse_parameter_type k paramType)
    let out ← match propertySet with
      | some _ => (do
        let q ← load_elem h2 ps1.parameters i.toNat
        some (some (some (OfxPropertySetHandle.of_param q))))
      | none => some none
    some { heap := h2, paramSet := ps1, status := OfxStatus.kOfxStatOK, propertySet := out }

/-- What `paramGetHandle` gives back: the status and the output variables
behind `param` and `propertySet`. -/
structure GetHandleResult where
  status : OfxStatus
  param : OutPtr OfxParamHandle
  propertySet : OutPtr (Option OfxPropertySetHandle)
  deriving DecidableEq, Repr

/-- The C function `paramGetHandle`; it reads the heap and does not change it.
`*param` is written without a null test. -/
def paramGetHandle (h : Heap) (paramSet : OfxParamSetStruct) (name : String)
    (param : OutPtr OfxParamHandle) (propertySet : OutPtr (Option OfxPropertySetHandle)) :
    Option GetHandleResult := do
  let i ← find_parameter h paramSet name
  if -1 = i then
    some { status := OfxStatus.kOfxStatErrUnknown, param := param, propertySet := propertySet }
  else do
    if i < 0 then none else
    let _ ← param
    let p ← load_elem h paramSet.parameters i.toNat
    let out ← match propertySet with
      | some _ => (do
        let q ← load_elem h paramSet.parameters i.toNat
        some (some (some (OfxPropertySetHandle.of_param q))))
      | none => some none
    some { status := OfxStatus.kOfxStatOK, param := some (some p), propertySet := out }

/-- The C function `paramSetGetPropertySet`: the status and the output
variable behind `propHandle`, written without a null test. -/
def paramSetGetPropertySet (paramSet : OfxParamSetStruct)
    (propHandle : OutPtr (Option OfxPropertySetHandle)) :
    Option (OfxStatus × OutPtr (Option OfxPropertySetHandle)) := do
  let _ ← propHandle
  some (OfxStatus.kOfxStatOK, some paramSet.effect_properties)

/-- The C function `paramGetPropertySet`: `&param->properties` is an address
computation, the object is not read. -/
def paramGetPropertySet (param : Addr) (propHandle : OutPtr (Option OfxPropertySetHandle)) :
    Option (OfxStatus × OutPtr (Option OfxPropertySetHandle)) := do
  let _ ← propHandle
  some (OfxStatus.kOfxStatOK, some (some (OfxPropertySetHandle.of_param param)))

/-- One variadic argument: a `double` or `int` passed by value, or a pointer
to a `double` or `int` output variable. -/
inductive VaArg
  | double (d : Double)
  | int (i : Int)
  | double_ptr (out : OutPtr Double)
  | int_ptr (out : OutPtr Int)
  deriving DecidableEq, Repr

/-- The loop of `paramGetValue`: `n` iterations are left, the next index is
`i`, `valist` holds the arguments not yet consumed; the result lists the
consumed arguments after the writes, followed by the ones left over. -/
def paramGetValue_loop (obj : OfxParamStruct) : Nat → Nat → List VaArg → Option (List VaArg)
  | _, 0, valist => some valist
  | i, n + 1, valist =>
    match obj.type with
    | ParamType.PARAM_TYPE_DOUBLE =>
      match valist with
      | VaArg.double_ptr (some _) :: rest => do
        let v ← obj.get_value i
        let d ← v.read_as_double
        let out ← paramGetValue_loop obj (i + 1) n rest
        some (VaArg.double_ptr (some d) :: out)
      | _ => none
    | ParamType.PARAM_TYPE_INT =>
      match valist with
      | VaArg.int_ptr (some _) :: rest => do
        let v ← obj.get_value i
        let x ← v.read_as_int
        let out ← paramGetValue_loop obj (i + 1) n rest
        some (VaArg.int_ptr (some x) :: out)
      | _ => none
    | ParamType.PARAM_TYPE_STRING => paramGetValue_loop obj (i + 1) n valist
    | ParamType.PARAM_TYPE_UNKNOWN => paramGetValue_loop obj (i + 1) n valist

/-- The C function `paramGetValue`: the status and the variadic arguments
with the output variables updated. -/
def paramGetValue (h : Heap) (paramHandle : Addr) (valist : List VaArg) :
    Option (OfxStatus × List VaArg) := do
  let obj ← load_param h paramHandle
  let dimensions := parameter_type_dimensions obj.type
  let out ← paramGetValue_loop obj 0 dimensions valist
  some (OfxStatus.kOfxStatOK, out)

/-- The loop of `paramSetValue`: `n` iterations are left, the next index is
`i`, `args` holds the arguments not yet consumed.  The `printf` of the double
case writes to the standard output, which is not part of the state. -/
def paramSetValue_loop (paramHandle : Addr) : Heap → Nat → Nat → List VaArg → Option Heap
  | h, _, 0, _ => some h
  | h, i, n + 1, args => do
    let obj ← load_param h paramHandle
    match obj.type with
    | ParamType.PARAM_TYPE_DOUBLE =>
      match args with
      | VaArg.double d :: rest => do
        let obj1 ← obj.set_value (ParamValue.as_double d) i
        let h1 ← store_param h paramHandle obj1
        paramSetValue_loop paramHandle h1 (i + 1) n rest
      | _ => none
    | ParamType.PARAM_TYPE_INT =>
      match args with
      | VaArg.int x :: rest => do
        let obj1 ← obj.set_value (ParamValue.as_int x) i
        let h1 ← store_param h paramHandle obj1
        paramSetValue_loop paramHandle h1 (i + 1) n rest
      | _ => none
    | ParamType.PARAM_TYPE_STRING => paramSetValue_loop paramHandle h (i + 1) n args
    | ParamType.PARAM_TYPE_UNKNOWN => paramSetValue_loop paramHandle h (i + 1) n args

/-- The C function `paramSetValue`: the new heap and the status. -/
def paramSetValue (h : Heap) (paramHandle : Addr) (args : List VaArg) :
    Option (Heap × OfxStatus) := do
  let obj ← load_param h paramHandle
  let dimensions := parameter_type_dimensions obj.type
  let h1 ← paramSetValue_loop paramHandle h 0 dimensions args
  some (h1, OfxStatus.kOfxStatOK)

/-- An `OfxTime`: a C `double`. -/
abbrev OfxTime := Double

/-- The C struct `OfxRangeD` of the OpenFX header `ofxCore.h`. -/
structure OfxRangeD where
  min : Double
  max : Double
  deriving DecidableEq, Repr

/-- The C function `paramGetValueAtTime`: the arguments are not used. -/
def paramGetValueAtTime (_paramHandle : OfxParamHandle) (_time : OfxTime)
    (_valist : List VaArg) : OfxStatus :=
  OfxStatus.kOfxStatErrUnsupported

/-- The C function `paramGetDerivative`: the arguments are not used. -/
def paramGetDerivative (_paramHandle : OfxParamHandle) (_time : OfxTime)
    (_valist : List VaArg) : OfxStatus :=
  OfxStatus.kOfxStatErrUnsupported

/-- The C function `paramGetIntegral`: the arguments are not used. -/
def paramGetIntegral (_paramHandle : OfxParamHandle) (_time1 _time2 : OfxTime)
    (_valist : List VaArg) : OfxStatus :=
  OfxStatus.kOfxStatErrUnsupported

/-- The C function `paramSetValueAtTime`: the arguments are not used. -/
def paramSetValueAtTime (_paramHandle : OfxParamHandle) (_time : OfxTime)
    (_args : List VaArg) : OfxStatus :=
  OfxStatus.kOfxStatErrUnsupported

/-- The C function `paramGetNumKeys`: the arguments are not used. -/
def paramGetNumKeys (_paramHandle : OfxParamHandle) (_numberOfKeys : OutPtr Nat) : OfxStatus :=
  OfxStatus.kOfxStatErrUnsupported

/-- The C function `paramGetKeyTime`: the arguments are not used. -/
def paramGetKeyTime (_paramHandle : OfxParamHandle) (_nthKey : Nat) (_time : OutPtr OfxTime) :
    OfxStatus :=
  OfxStatus.kOfxStatErrUnsupported

/-- The C function `paramGetKeyIndex`: the arguments are not used. -/
def paramGetKeyIndex (_paramHandle : OfxParamHandle) (_time : OfxTime) (_direction : Int)
    (_index : OutPtr Int) : OfxStatus :=
  OfxStatus.kOfxStatErrUnsupported

/-- The C function `paramDeleteKey`: the arguments are not used. -/
def paramDeleteKey (_paramHandle : OfxParamHandle) (_time : OfxTime) : OfxStatus :=
  OfxStatus.kOfxStatErrUnsupported

/-- The C function `paramDeleteAllKeys`: the argument is not used. -/
def paramDeleteAllKeys (_paramHandle : OfxParamHandle) : OfxStatus :=
  OfxStatus.kOfxStatErrUnsupported

/-- The C function `paramCopy`: the arguments are not used. -/
def paramCopy (_paramTo _paramFrom : OfxParamHandle) (_dstOffset : OfxTime)
    (_frameRange : Option OfxRangeD) : OfxStatus :=
  OfxStatus.kOfxStatErrUnsupported

/-- The C function `paramEditBegin`: the arguments are not used. -/
def paramEditBegin (_paramSet : Option OfxParamSetStruct) (_name : Option String) : OfxStatus :=
  OfxStatus.kOfxStatErrUnsupported

/-- The C function `paramEditEnd`: the argument is not used. -/
def paramEditEnd (_paramSet : Option OfxParamSetStruct) : OfxStatus :=
  OfxStatus.kOfxStatErrUnsupported

/-! ## Well-formedness of the inputs -/

/-- Every entry of the registry has a name that `find_parameter` can read:
the array, the parameter object and the name buffer are allocated and live,
and the name buffer holds a string. -/
def AllNamed (h : Heap) (param_set : OfxParamSetStruct) : Prop :=
  ∀ i, i < param_set.num_parameters.toNat → (entry_name h param_set i).isSome = true

instance (h : Heap) (param_set : OfxParamSetStruct) : Decidable (AllNamed h param_set) := by
  unfold AllNamed; infer_instance

/-- The registry is a well-formed `OfxParamSetStruct`: the count is not
negative, `parameters` is null or an allocated array, and the first
`num_parameters` elements of the array can be read. -/
def ValidSet (h : Heap) (param_set : OfxParamSetStruct) : Prop :=
  0 ≤ param_set.num_parameters ∧
  (∀ a ∈ param_set.parameters, (h.arrays[a]?).isSome = true) ∧
  ∀ i, i < param_set.num_parameters.toNat → (load_elem h param_set.parameters i).isSome = true

instance (h : Heap) (param_set : OfxParamSetStruct) : Decidable (ValidSet h param_set) := by
  unfold ValidSet; infer_instance

/-- No entry below `num_parameters` is named `param`. -/
def Absent (h : Heap) (ps : OfxParamSetStruct) (param : String) : Prop :=
  ∀ j, j < ps.num_parameters.toNat → entry_name h ps j ≠ some param

instance (h : Heap) (ps : OfxParamSetStruct) (param : String) : Decidable (Absent h ps param) := by
  unfold Absent; infer_instance

/-- Entry `k` is the first entry named `param`, and the entries before it have
names. -/
def FirstAt (h : Heap) (ps : OfxParamSetStruct) (param : String) (k : Nat) : Prop :=
  k < ps.num_parameters.toNat ∧ entry_name h ps k = some param ∧
  ∀ j, j < k → (entry_name h ps j).isSome = true ∧ entry_name h ps j ≠ some param

instance (h : Heap) (ps : OfxParamSetStruct) (param : String) (k : Nat) :
    Decidable (FirstAt h ps param k) := by
  unfold FirstAt; infer_instance

/-- The content of a parameter object right after `malloc_array` and
`init_parameter`: type double, no name, empty bag, value slots untouched. -/
def init_obj : OfxParamStruct :=
  { fresh_param with
    type := ParamType.PARAM_TYPE_DOUBLE, name := none, properties := init_properties }

/-- The pointers that `append_parameters` leaves in the new array: the old
pointers up to the old count, then the addresses of the new blocks. -/
def appended_elems (h : Heap) (param_set : OfxParamSetStruct) (count : Int) :
    List (Option Addr) :=
  (List.range' 0 (param_set.num_parameters + count).toNat).map
    (fun j => some (if j < param_set.num_parameters.toNat
      then (load_elem h param_set.parameters j).getD 0
      else h.params.length + (j - param_set.num_parameters.toNat)))

/-- The array region after `append_parameters`: the new array at the end, and
the old array (when there is one) freed once more. -/
def appended_arrays (h : Heap) (param_set : OfxParamSetStruct) (count : Int) : List PtrArray :=
  match param_set.parameters with
  | some a =>
    match h.arrays[a]? with
    | some c => h.arrays.set a { c with frees := c.frees + 1 } ++
        [⟨appended_elems h param_set count, 0⟩]
    | none => h.arrays ++ [⟨appended_elems h param_set count, 0⟩]
  | none => h.arrays ++ [⟨appended_elems h param_set count, 0⟩]

/-- The heap `ensure_parameter` has built when it reaches its `strcpy`: one
new name buffer of `strlen parameter` bytes, not yet written, one new parameter
object whose name points to it, one new array. -/
def ensured_heap (h : Heap) (param_set : OfxParamSetStruct) (parameter : String) : Heap :=
  { chars := h.chars ++ [⟨strlen parameter, none, 0⟩]
    params := h.params ++ [⟨{ init_obj with name := some h.chars.length }, 0⟩]
    arrays := appended_arrays h param_set 1 }

/-- The registry `ensure_parameter` has built when it reaches its `strcpy`. -/
def ensured_set (h : Heap) (param_set : OfxParamSetStruct) : OfxParamSetStruct :=
  { param_set with num_parameters := param_set.num_parameters + 1
                   parameters := some h.arrays.length }

/-- Every block of `h` is found unchanged, at the same address, in `g`: the
`char` blocks and the parameter objects. -/
def Preserved (h g : Heap) : Prop :=
  (∀ (a : Addr) (c : CharArray), h.chars[a]? = some c → g.chars[a]? = some c) ∧
  (∀ (q : Addr) (b : ParamBlock), h.params[q]? = some b → g.params[q]? = some b)

/-- A heap holding a registry of two declared parameters: `a`, a double with
value `1.0`, and `b`, an integer with value `2`. -/
def demo_heap : Heap :=
  { chars := [⟨2, some "a", 0⟩, ⟨2, some "b", 0⟩]
    params :=
      [⟨{ init_obj with name := some 0
                        value0 := ParamValue.as_double ⟨0x3FF0000000000000⟩ }, 0⟩,
       ⟨{ init_obj with type := ParamType.PARAM_TYPE_INT
                        name := some 1
                        value0 := ParamValue.as_int 2 }, 0⟩]
    arrays := [⟨[some 0, some 1], 0⟩] }

/-- The registry of `demo_heap`. -/
def demo_set : OfxParamSetStruct :=
  { num_parameters := 2, parameters := some 0,
    effect_properties := some (OfxPropertySetHandle.external 0) }

/-- The heap with nothing allocated. -/
def empty_heap : Heap := { chars := [], params := [], arrays := [] }

/-- A heap with one string parameter named `t` whose text is `hello`. -/
def text_heap : Heap :=
  { chars := [⟨2, some "t", 0⟩, ⟨6, some "hello", 0⟩]
    params :=
      [⟨{ init_obj with type := ParamType.PARAM_TYPE_STRING
                        name := some 0
                        value0 := ParamValue.as_char (some 1) }, 0⟩]
    arrays := [⟨[some 0], 0⟩] }

/-- The registry of `text_heap`. -/
def text_set : OfxParamSetStruct :=
  { num_parameters := 1, parameters := some 0, effect_properties := none }

/-- The heap `text_heap` with a second parameter object, allocated and
initialised as `append_parameters` does: the destination of a copy. -/
def text_pair_heap : Heap :=
  { text_heap with params := text_heap.params ++ [⟨init_obj, 0⟩] }

/-- The heap `text_pair_heap` after the type and the value slots of the first
object were copied to the second. -/
def text_slots_heap : Heap :=
  { text_heap with
    params := text_heap.params ++
      [⟨{ init_obj with type := ParamType.PARAM_TYPE_STRING
                        value0 := ParamValue.as_char (some 1) }, 0⟩] }

/-! ## The objects of a registry -/

/-- The string `deep_copy_parameter` reads through the text pointer of a
source object: slot 0 must hold a non-null pointer to a live string. -/
def source_text (g : Heap) (s : OfxParamStruct) : Option String :=
  match s.value0 with
  | ParamValue.as_char (some tb) => load_string g tb
  | _ => none

/-- One call of `paramDefine`: the type string, the name and the output
pointer that the caller passes. -/
structure DefineCall where
  paramType : String
  name : String
  propertySet : OutPtr (Option OfxPropertySetHandle)
  deriving DecidableEq, Repr

/-- The caller's sequence of `paramDefine` calls on one registry, in the order
of the list: the final heap and registry and the statuses returned, in order. -/
def define_all (k : ParamTypeNames) :
    Heap → OfxParamSetStruct → List DefineCall →
      Option (Heap × OfxParamSetStruct × List OfxStatus)
  | h, ps, [] => some (h, ps, [])
  | h, ps, c :: rest =>
    match paramDefine k h ps c.paramType c.name c.propertySet with
    | none => none
    | some r =>
      match define_all k r.heap r.paramSet rest with
      | none => none
      | some (h1, ps1, sts) => some (h1, ps1, r.status :: sts)

/-! ## The two storage states of a parameter -/

/-- The text-owning state: slot 0 of the object holds a non-null pointer to a
live `char` block that holds a string. -/
def OwnsText (h : Heap) (o : OfxParamStruct) : Prop :=
  (source_text h o).isSome = true

instance (h : Heap) (o : OfxParamStruct) : Decidable (OwnsText h o) := by
  unfold OwnsText; infer_instance

/-- The heaps in which the parameter object at `p` can be after it was
allocated and initialised by `init_parameter` (as `append_parameters` does) and
then went through any finite sequence of `parameter_set_type` and
`paramSetValue` calls. -/
inductive ParamReachable (p : Addr) : Heap → Prop
  | init (h0 : Heap) {h1 : Heap} :
      p = (malloc_array_param h0).2 → init_parameter (malloc_array_param h0).1 p = some h1 →
      ParamReachable p h1
  | set_type {h h1 : Heap} (type : ParamType) :
      ParamReachable p h → parameter_set_type h p type = some h1 → ParamReachable p h1
  | set_value {h h1 : Heap} (args : List VaArg) (status : OfxStatus) :
      ParamReachable p h → paramSetValue h p args = some (h1, status) → ParamReachable p h1

/-- The invariant of `ParamReachable`: the object at `p` is live and either is
of type string and owns a live text buffer holding a string that fits, or is not of type
string and holds no text pointer in slot 0. -/
def StorageInv (h : Heap) (p : Addr) : Prop :=
  ∃ o, h.params[p]? = some ⟨o, 0⟩ ∧
    ((o.type = ParamType.PARAM_TYPE_STRING ∧
        ∃ (b : Nat) (c : CharArray), o.value0 = ParamValue.as_char (some b) ∧
          h.chars[b]? = some c ∧ c.frees = 0 ∧ c.Fits ∧ c.text.isSome = true) ∨
     (o.type ≠ ParamType.PARAM_TYPE_STRING ∧
        ∀ b : Nat, o.value0 ≠ ParamValue.as_char (some b)))

/-- The heap after a new object on the empty heap was made a string parameter
and then an integer parameter: the one-byte text buffer is freed. -/
def retyped_heap : Heap :=
  { chars := [⟨1, some "", 1⟩]
    params := [⟨{ init_obj with type := ParamType.PARAM_TYPE_INT
                                value0 := ParamValue.as_char none }, 0⟩]
    arrays := [] }

/-! # Properties -/

/-! ## Memory primitives -/

theorem list_set_of_getElem? {α : Type} (l : List α) (i : Nat) (a : α)
    (hi : l[i]? = some a) : l.set i a = l := by
  apply List.ext_getElem?
  intro j
  by_cases hj : i = j
  · subst hj
    have hlt : i < l.length := by
      rcases List.getElem?_eq_some.1 hi with ⟨hl, _⟩
      exact hl
    rw [List.getElem?_set_self hlt, hi]
  · rw [List.getElem?_set_ne hj]

theorem list_getElem?_append_cons {α : Type} (l r : List α) (a : α) :
    (l ++ a :: r)[l.length]? = some a := by
  rw [List.getElem?_append_right (Nat.le_refl _)]
  simp

theorem list_lt_of_getElem? {α : Type} {l : List α} {i : Nat} {a : α}
    (hi : l[i]? = some a) : i < l.length := by
  rcases List.getElem?_eq_some.1 hi with ⟨hl, _⟩
  exact hl

theorem list_take_succ_set {α : Type} (l : List α) (i : Nat) (a : α) (hi : i < l.length) :
    (l.set i a).take (i + 1) = l.take i ++ [a] := by
  rw [List.take_succ, List.getElem?_set_self hi, List.set_take]
  have hlen : (l.take i).length ≤ i := by simp
  rw [List.set_eq_of_length_le hlen]
  rfl

theorem load_param_eq {h : Heap} {p : Addr} {o : OfxParamStruct}
    (hp : h.params[p]? = some ⟨o, 0⟩) : load_param h p = some o := by
  simp [load_param, hp]

theorem load_param_inv {h : Heap} {p : Addr} {o : OfxParamStruct}
    (hp : load_param h p = some o) : h.params[p]? = some ⟨o, 0⟩ := by
  unfold load_param at hp
  cases hb : h.params[p]? with
  | none => simp [hb] at hp
  | some b =>
    rw [hb] at hp
    by_cases hf : b.frees = 0
    · simp [hf] at hp
      cases b
      simp_all
    · simp [hf] at hp

theorem store_param_eq {h : Heap} {p : Addr} {o : OfxParamStruct} (v : OfxParamStruct)
    (hp : h.params[p]? = some ⟨o, 0⟩) :
    store_param h p v = some { h with params := h.params.set p ⟨v, 0⟩ } := by
  simp [store_param, hp]

theorem modify_param_eq {h : Heap} {p : Addr} {o : OfxParamStruct}
    (f : OfxParamStruct → OfxParamStruct) (hp : h.params[p]? = some ⟨o, 0⟩) :
    modify_param h p f = some { h with params := h.params.set p ⟨f o, 0⟩ } := by
  simp [modify_param, load_param_eq hp, store_param_eq _ hp]

theorem init_parameter_eq {h : Heap} {p : Addr} {o : OfxParamStruct}
    (hp : h.params[p]? = some ⟨o, 0⟩) :
    init_parameter h p = some { h with params := (h.params.set p
      (ParamBlock.mk { o with type := ParamType.PARAM_TYPE_DOUBLE, name := none,
                              properties := init_properties } 0)) } := by
  simp [init_parameter, load_param_eq hp, store_param_eq _ hp]

theorem load_string_eq {h : Heap} {a : Addr} {c : CharArray}
    (ha : h.chars[a]? = some c) (hf : c.frees = 0) (hfit : c.Fits) :
    load_string h a = c.text := by
  simp [load_string, ha, hf, hfit]

theorem store_string_eq {h : Heap} {a : Addr} {c : CharArray} (s : String)
    (ha : h.chars[a]? = some c) (hf : c.frees = 0) (hcap : s.length + 1 ≤ c.cap) :
    store_string h a s = some { h with chars := h.chars.set a { c with text := some s } } := by
  simp [store_string, ha, hf, hcap]

/-- A write past the end of the block is undefined. -/
theorem store_string_short {h : Heap} {a : Addr} {c : CharArray} (s : String)
    (ha : h.chars[a]? = some c) (hcap : c.cap < s.length + 1) : store_string h a s = none := by
  have hnot : ¬ (s.length + 1 ≤ c.cap) := by omega
  simp [store_string, ha, hnot]

theorem load_elem_eq {h : Heap} {a : Addr} {E : List (Option Addr)} (i : Nat)
    (ha : h.arrays[a]? = some ⟨E, 0⟩) : load_elem h (some a) i = (E[i]?).join := by
  simp [load_elem, ha]

theorem store_elem_eq {h : Heap} {a : Addr} {E : List (Option Addr)} {i : Nat} (p : Addr)
    (ha : h.arrays[a]? = some ⟨E, 0⟩) (hi : i < E.length) :
    store_elem h a i p = some { h with arrays := h.arrays.set a ⟨E.set i (some p), 0⟩ } := by
  simp [store_elem, ha, hi]

theorem load_elem_congr {g h : Heap} (arr : Option Addr) (i : Nat)
    (hc : ∀ a ∈ arr, g.arrays[a]? = h.arrays[a]?) : load_elem g arr i = load_elem h arr i := by
  cases arr with
  | none => rfl
  | some a => simp [load_elem, hc a rfl]

/-! ## `append_parameters` -/

/-- The closed form of the loop of `append_parameters`, started at index `i`
with `n` iterations left: index `j` of the new array receives the old pointer
`P j` below the old count `o` and the address of a new initialised object
above it. -/
theorem append_parameters_loop_eq (o : Nat) (old : Option Addr) (arr : Addr) (P : Nat → Addr)
    (base : Nat) :
    ∀ (n i : Nat) (g : Heap) (E : List (Option Addr)),
      g.arrays[arr]? = some ⟨E, 0⟩ → E.length = i + n → old ≠ some arr →
      (∀ j, i ≤ j → j < o → load_elem g old j = some (P j)) →
      g.params.length = base + (i - o) →
      append_parameters_loop (o : Int) old arr g i n =
        some { chars := g.chars
               params := g.params ++ List.replicate ((i + n) - max i o) ⟨init_obj, 0⟩
               arrays := g.arrays.set arr
                 ⟨E.take i ++ (List.range' i n).map
                    (fun j => some (if j < o then P j else base + (j - o))), 0⟩ } := by
  intro n
  induction n with
  | zero =>
    intro i g E hE hlen _ _ _
    have h1 : i - max i o = 0 := by omega
    have h2 : E.take i = E := List.take_of_length_le (by omega)
    simp [append_parameters_loop, h1, h2, list_set_of_getElem? _ _ _ hE]
  | succ n ih =>
    intro i g E hE hlen hold hP hbase
    have hi : i < E.length := by omega
    have harr : arr < g.arrays.length := list_lt_of_getElem? hE
    by_cases hio : i < o
    · have hstore := store_elem_eq (P i) hE hi
      have hload := hP i (Nat.le_refl i) hio
      have hlt : (i : Int) < (o : Int) := by exact_mod_cast hio
      have hrec := ih (i + 1) { g with arrays := g.arrays.set arr ⟨E.set i (some (P i)), 0⟩ }
        (E.set i (some (P i)))
        (by simp [List.getElem?_set_self harr]) (by simp; omega) hold
        (by
          intro j hj hjo
          rw [← hP j (by omega) hjo]
          apply load_elem_congr
          intro a ha
          have hne : arr ≠ a := by
            intro heq; subst heq; exact hold ha
          simp [List.getElem?_set_ne hne])
        (by simp; omega)
      have hmax : i + 1 + n - max (i + 1) o = i + (n + 1) - max i o := by omega
      simp only [append_parameters_loop, hlt, if_true, hload, hstore, Option.bind_eq_bind,
        Option.some_bind, hrec, List.set_set, hmax, list_take_succ_set _ _ _ hi,
        List.range'_succ, List.map_cons, hio, List.append_assoc, List.singleton_append]
    · have hge : ¬ ((i : Int) < (o : Int)) := by
        intro hc; exact hio (by exact_mod_cast hc)
      have hlen1 : g.params.length = base + (i - o) := hbase
      have hstore := store_elem_eq (h := { g with params := g.params ++ [⟨fresh_param, 0⟩] })
        g.params.length hE hi
      have hinit : init_parameter
          { chars := g.chars, params := g.params ++ [⟨fresh_param, 0⟩],
            arrays := g.arrays.set arr ⟨E.set i (some g.params.length), 0⟩ } g.params.length =
          some { chars := g.chars, params := g.params ++ [⟨init_obj, 0⟩],
                 arrays := g.arrays.set arr ⟨E.set i (some g.params.length), 0⟩ } := by
        rw [init_parameter_eq (o := fresh_param) (by simp)]
        simp [init_obj, fresh_param]
      have hrec := ih (i + 1)
        { chars := g.chars, params := g.params ++ [⟨init_obj, 0⟩],
          arrays := g.arrays.set arr ⟨E.set i (some g.params.length), 0⟩ }
        (E.set i (some g.params.length))
        (by simp [List.getElem?_set_self harr]) (by simp; omega) hold
        (by intro j hj hjo; omega)
        (by simp; omega)
      have hcount : i + (n + 1) - max i o = (i + 1 + n - max (i + 1) o) + 1 := by omega
      have hback : load_elem
          { chars := g.chars, params := g.params ++ [⟨fresh_param, 0⟩],
            arrays := g.arrays.set arr ⟨E.set i (some g.params.length), 0⟩ } (some arr) i =
          some g.params.length := by
        rw [load_elem_eq (E := E.set i (some g.params.length)) i
          (by simp [List.getElem?_set_self harr])]
        simp [List.getElem?_set_self hi]
      have hval : (if i < o then P i else base + (i - o)) = g.params.length := by
        simp [hio, hlen1]
      simp only [append_parameters_loop, hge, if_false, malloc_array_param, hstore,
        Option.bind_eq_bind, Option.some_bind, hback, hinit, hrec, List.set_set, hcount,
        list_take_succ_set _ _ _ hi, List.range'_succ, List.map_cons, hval, List.append_assoc,
        List.singleton_append, List.replicate_succ]

/-! ## `parameter_realloc_string` and `parameter_set_type` -/

theorem name_ptr_eq {h : Heap} {p : Addr} {o : OfxParamStruct}
    (hp : h.params[p]? = some ⟨o, 0⟩) : name_ptr h p = o.name := by
  simp [name_ptr, load_param_eq hp]

theorem text_ptr_eq {h : Heap} {p : Addr} {o : OfxParamStruct} {b : Option Addr}
    (hp : h.params[p]? = some ⟨o, 0⟩) (hv : o.value0 = ParamValue.as_char b) :
    text_ptr h p = b := by
  simp [text_ptr, load_param_eq hp, hv, ParamValue.read_as_char]

/-- On a parameter whose text pointer is null, `parameter_realloc_string` only
allocates. -/
theorem parameter_realloc_string_null {h : Heap} {p : Addr} {o : OfxParamStruct} {size : Int}
    (hp : h.params[p]? = some ⟨o, 0⟩) (hv : o.value0 = ParamValue.as_char none)
    (hs : 1 ≤ size) :
    parameter_realloc_string h p size =
      some { chars := h.chars ++ [⟨size.toNat, some "", 0⟩]
             params := h.params.set p
               ⟨{ o with value0 := ParamValue.as_char (some h.chars.length) }, 0⟩
             arrays := h.arrays } := by
  have hneg : ¬ size < 0 := by omega
  have hlt : p < h.params.length := list_lt_of_getElem? hp
  unfold parameter_realloc_string
  simp only [load_param_eq hp, hv, ParamValue.read_as_char, Option.bind_eq_bind,
    Option.some_bind, hneg, if_false, malloc_array_char]
  rw [modify_param_eq (o := o) _ (by simpa using hp)]
  simp only [Option.some_bind]
  rw [text_ptr_eq (o := { o with value0 := ParamValue.as_char (some h.chars.length) })
    (b := some h.chars.length) (by simp [List.getElem?_set_self hlt]) rfl]
  simp only [Option.some_bind]
  rw [store_string_eq (c := ⟨size.toNat, none, 0⟩) _ (by simp) rfl
    (by simp only [strlen, String.length_empty]; omega)]
  simp

/-- On a parameter that owns the text buffer `b`, `parameter_realloc_string`
frees `b` and allocates. -/
theorem parameter_realloc_string_owned {h : Heap} {p : Addr} {o : OfxParamStruct} {size : Int}
    {b : Addr} {c : CharArray}
    (hp : h.params[p]? = some ⟨o, 0⟩) (hv : o.value0 = ParamValue.as_char (some b))
    (hb : h.chars[b]? = some c) (hs : 1 ≤ size) :
    parameter_realloc_string h p size =
      some { chars := h.chars.set b { c with frees := c.frees + 1 } ++
               [⟨size.toNat, some "", 0⟩]
             params := h.params.set p
               ⟨{ o with value0 := ParamValue.as_char (some h.chars.length) }, 0⟩
             arrays := h.arrays } := by
  have hneg : ¬ size < 0 := by omega
  have hlt : p < h.params.length := list_lt_of_getElem? hp
  unfold parameter_realloc_string
  simp only [load_param_eq hp, hv, ParamValue.read_as_char, Option.bind_eq_bind,
    Option.some_bind, hneg, if_false, malloc_array_char, free_array_char, hb, List.length_set]
  rw [modify_param_eq (o := o) _ (by simpa using hp)]
  simp only [Option.some_bind]
  rw [text_ptr_eq (o := { o with value0 := ParamValue.as_char (some h.chars.length) })
    (b := some h.chars.length) (by simp [List.getElem?_set_self hlt]) rfl]
  simp only [Option.some_bind]
  rw [store_string_eq (c := ⟨size.toNat, none, 0⟩) _ (by simp) rfl
    (by simp only [strlen, String.length_empty]; omega)]
  simp

/-- What `parameter_set_type` does to a parameter that is not of type string. -/
theorem parameter_set_type_scalar {h : Heap} {p : Addr} {o : OfxParamStruct} (type : ParamType)
    (hp : h.params[p]? = some ⟨o, 0⟩) (ht : o.type ≠ ParamType.PARAM_TYPE_STRING) :
    parameter_set_type h p type =
      some (if o.type = type then h
        else if type = ParamType.PARAM_TYPE_STRING then
          { chars := h.chars ++ [⟨1, some "", 0⟩]
            params := h.params.set p
              ⟨{ o with type := type, value0 := ParamValue.as_char (some h.chars.length) }, 0⟩
            arrays := h.arrays }
        else { h with params := h.params.set p ⟨{ o with type := type }, 0⟩ }) := by
  have hlt : p < h.params.length := list_lt_of_getElem? hp
  have ht' : ¬ ParamType.PARAM_TYPE_STRING = o.type := fun e => ht e.symm
  unfold parameter_set_type
  by_cases hsame : o.type = type
  · simp [load_param_eq hp, hsame]
  · simp only [load_param_eq hp, Option.bind_eq_bind, Option.some_bind, hsame, if_false, ht']
    rw [modify_param_eq (o := o) _ hp]
    simp only [Option.some_bind]
    rw [load_param_eq (o := { o with type := type }) (by simp [List.getElem?_set_self hlt])]
    simp only [Option.some_bind]
    by_cases hstr : type = ParamType.PARAM_TYPE_STRING
    · subst hstr
      simp only [if_true]
      rw [modify_param_eq (o := { o with type := ParamType.PARAM_TYPE_STRING }) _
        (by simp [List.getElem?_set_self hlt])]
      simp only [Option.some_bind, List.set_set]
      rw [parameter_realloc_string_null
        (o := { o with type := ParamType.PARAM_TYPE_STRING, value0 := ParamValue.as_char none })
        (by simp [List.getElem?_set_self hlt]) rfl (by decide)]
      simp
    · have hstr' : ¬ ParamType.PARAM_TYPE_STRING = type := fun e => hstr e.symm
      simp [hstr, hstr']

/-- What `parameter_set_type` does to a parameter of type string that owns the
text buffer `b`. -/
theorem parameter_set_type_text {h : Heap} {p : Addr} {o : OfxParamStruct} (type : ParamType)
    {b : Addr} {c : CharArray}
    (hp : h.params[p]? = some ⟨o, 0⟩) (ht : o.type = ParamType.PARAM_TYPE_STRING)
    (hv : o.value0 = ParamValue.as_char (some b)) (hb : h.chars[b]? = some c) :
    parameter_set_type h p type =
      some (if type = ParamType.PARAM_TYPE_STRING then h
        else { chars := h.chars.set b { c with frees := c.frees + 1 }
               params := h.params.set p
                 ⟨{ o with type := type, value0 := ParamValue.as_char none }, 0⟩
               arrays := h.arrays }) := by
  have hlt : p < h.params.length := list_lt_of_getElem? hp
  unfold parameter_set_type
  by_cases hsame : type = ParamType.PARAM_TYPE_STRING
  · simp [load_param_eq hp, hsame, ht]
  · have hsame' : ¬ o.type = type := by rw [ht]; exact fun e => hsame e.symm
    have hsame2 : ¬ ParamType.PARAM_TYPE_STRING = type := fun e => hsame e.symm
    simp only [load_param_eq hp, Option.bind_eq_bind, Option.some_bind, hsame', if_false, ht,
      if_true, hv, ParamValue.read_as_char, free_array_char, hb]
    rw [modify_param_eq (o := o) _ (by simpa using hp)]
    simp only [Option.some_bind]
    rw [modify_param_eq (o := { o with value0 := ParamValue.as_char none }) _
      (by simp [List.getElem?_set_self hlt])]
    simp only [Option.some_bind, List.set_set]
    rw [load_param_eq (o := { o with type := type, value0 := ParamValue.as_char none })
      (by simp [List.getElem?_set_self hlt])]
    simp [hsame, hsame2]

/-! ## Lookup -/

theorem strcmp_chars_eq_zero_iff : ∀ (a b : List Char), strcmp_chars a b = 0 ↔ a = b
  | [], [] => by simp [strcmp_chars]
  | [], _ :: _ => by simp [strcmp_chars]
  | _ :: _, [] => by simp [strcmp_chars]
  | a :: as, b :: bs => by
    unfold strcmp_chars
    by_cases h1 : a.toNat < b.toNat
    · have hne : a ≠ b := by intro e; subst e; omega
      simp [h1, hne]
    · by_cases h2 : b.toNat < a.toNat
      · have hne : a ≠ b := by intro e; subst e; omega
        simp [h1, h2, hne]
      · have heq : a = b := by
          apply Char.ext
          apply UInt32.ext
          have : a.toNat = b.toNat := by omega
          exact this
        simp [h1, h2, heq, strcmp_chars_eq_zero_iff as bs]

theorem strcmp_eq_zero_iff (a b : String) : 0 = strcmp a b ↔ a = b := by
  unfold strcmp
  rw [eq_comm, strcmp_chars_eq_zero_iff, String.ext_iff]

theorem find_parameter_loop_absent (h : Heap) (ps : OfxParamSetStruct) (param : String) :
    ∀ (n i : Nat),
      (∀ j, i ≤ j → j < i + n → ∃ s, entry_name h ps j = some s ∧ s ≠ param) →
      find_parameter_loop h ps param i n = some (-1) := by
  intro n
  induction n with
  | zero => intro i _; rfl
  | succ n ih =>
    intro i hall
    obtain ⟨s, hs, hne⟩ := hall i (Nat.le_refl i) (by omega)
    have hstep : find_parameter_loop h ps param (i + 1) n = some (-1) :=
      ih (i + 1) (fun j h1 h2 => hall j (by omega) (by omega))
    simp [find_parameter_loop, hs, strcmp_eq_zero_iff, hne, hstep]

theorem find_parameter_loop_first (h : Heap) (ps : OfxParamSetStruct) (param : String) :
    ∀ (n i k : Nat), i ≤ k → k < i + n →
      entry_name h ps k = some param →
      (∀ j, i ≤ j → j < k → ∃ s, entry_name h ps j = some s ∧ s ≠ param) →
      find_parameter_loop h ps param i n = some (k : Int) := by
  intro n
  induction n with
  | zero => intro i k h1 h2; omega
  | succ n ih =>
    intro i k hik hkn hk hbefore
    by_cases hEq : i = k
    · subst hEq
      simp [find_parameter_loop, hk, strcmp_eq_zero_iff]
    · obtain ⟨s, hs, hne⟩ := hbefore i (Nat.le_refl i) (by omega)
      have hstep := ih (i + 1) k (by omega) (by omega) hk
        (fun j h1 h2 => hbefore j (by omega) h2)
      simp [find_parameter_loop, hs, strcmp_eq_zero_iff, hne, hstep]

theorem find_parameter_of_absent {h : Heap} {ps : OfxParamSetStruct} {param : String}
    (hn : AllNamed h ps) (ha : Absent h ps param) : find_parameter h ps param = some (-1) := by
  unfold find_parameter
  apply find_parameter_loop_absent
  intro j _ hj
  have hj' : j < ps.num_parameters.toNat := by omega
  obtain ⟨s, hs⟩ := Option.isSome_iff_exists.1 (hn j hj')
  exact ⟨s, hs, fun he => ha j hj' (by rw [hs, he])⟩

theorem find_parameter_of_firstAt {h : Heap} {ps : OfxParamSetStruct} {param : String} {k : Nat}
    (hk : FirstAt h ps param k) : find_parameter h ps param = some (k : Int) := by
  unfold find_parameter
  obtain ⟨hlt, hname, hbefore⟩ := hk
  apply find_parameter_loop_first _ _ _ _ 0 k (Nat.zero_le k) (by omega) hname
  intro j _ hj
  obtain ⟨hsome, hne⟩ := hbefore j hj
  obtain ⟨s, hs⟩ := Option.isSome_iff_exists.1 hsome
  exact ⟨s, hs, fun he => hne (by rw [hs, he])⟩

/-- On a registry whose entries all have names, a name is either absent or has
a first entry. -/
theorem absent_or_firstAt {h : Heap} {ps : OfxParamSetStruct} (param : String)
    (hn : AllNamed h ps) : Absent h ps param ∨ ∃ k, FirstAt h ps param k := by
  by_cases hex : ∃ j, j < ps.num_parameters.toNat ∧ entry_name h ps j = some param
  · right
    classical
    refine ⟨Nat.find hex, (Nat.find_spec hex).1, (Nat.find_spec hex).2, ?_⟩
    intro j hj
    have hlt : j < ps.num_parameters.toNat := Nat.lt_trans hj (Nat.find_spec hex).1
    exact ⟨hn j hlt, fun he => Nat.find_min hex hj ⟨hlt, he⟩⟩
  · left
    intro j hj he
    exact hex ⟨j, hj, he⟩

/-- C5. On a registry whose entries all have names, `find_parameter` returns a
value `r`; `r` is not negative exactly when some entry is named `n`, and then
`r` is an index of the registry, entry `r` is named `n` and no entry at a
smaller index is named `n`; `r` is `-1` exactly when no entry is named `n`.
On a freshly initialised registry the result is `-1` for every name, whatever
the heap. -/
theorem find_parameter_first_match (h : Heap) (ps : OfxParamSetStruct) (n : String)
    (hn : AllNamed h ps) :
    (∃ r, find_parameter h ps n = some r ∧
      (0 ≤ r ↔ ∃ j, j < ps.num_parameters.toNat ∧ entry_name h ps j = some n) ∧
      (0 ≤ r → r.toNat < ps.num_parameters.toNat ∧ entry_name h ps r.toNat = some n ∧
        ∀ j, j < r.toNat → entry_name h ps j ≠ some n) ∧
      (r = -1 ↔ ¬ ∃ j, j < ps.num_parameters.toNat ∧ entry_name h ps j = some n)) ∧
    (∀ (g : Heap) (d : OfxParamSetStruct) (m : String),
      find_parameter g (init_parameter_set d) m = some (-1)) := by
  refine ⟨?_, fun g d m => rfl⟩
  rcases absent_or_firstAt n hn with ha | ⟨k, hk⟩
  · have hno : ¬ ∃ j, j < ps.num_parameters.toNat ∧ entry_name h ps j = some n :=
      fun ⟨j, hj, he⟩ => ha j hj he
    refine ⟨-1, find_parameter_of_absent hn ha, ?_, ?_, ?_⟩
    · exact ⟨fun hr => absurd hr (by decide), fun hr => absurd hr hno⟩
    · intro hr; omega
    · exact ⟨fun _ => hno, fun _ => rfl⟩
  · have hyes : ∃ j, j < ps.num_parameters.toNat ∧ entry_name h ps j = some n :=
      ⟨k, hk.1, hk.2.1⟩
    refine ⟨(k : Int), find_parameter_of_firstAt hk, ?_, ?_, ?_⟩
    · exact ⟨fun _ => hyes, fun _ => Int.ofNat_nonneg k⟩
    · intro _
      simp only [Int.toNat_ofNat]
      exact ⟨hk.1, hk.2.1, fun j hj => (hk.2.2 j hj).2⟩
    · constructor
      · intro hr; omega
      · intro hr; exact absurd hyes hr

theorem append_parameters_eq {h : Heap} {ps : OfxParamSetStruct} {count : Int}
    (hv : ValidSet h ps) (hc : 0 ≤ count) :
    append_parameters h ps count =
      some ({ chars := h.chars
              params := h.params ++ List.replicate count.toNat ⟨init_obj, 0⟩
              arrays := appended_arrays h ps count },
            { ps with num_parameters := ps.num_parameters + count
                      parameters := some h.arrays.length }) := by
  obtain ⟨hnum, halloc, hread⟩ := hv
  have hnn : ¬ (ps.num_parameters + count < 0) := by omega
  have hold : ps.parameters ≠ some h.arrays.length := by
    intro heq
    have := halloc _ heq
    simp at this
  have hloop := append_parameters_loop_eq ps.num_parameters.toNat ps.parameters h.arrays.length
    (fun j => (load_elem h ps.parameters j).getD 0) h.params.length
    (ps.num_parameters + count).toNat 0
    { h with arrays := h.arrays ++
        [⟨List.replicate (ps.num_parameters + count).toNat none, 0⟩] }
    (List.replicate (ps.num_parameters + count).toNat none)
    (by simp) (by simp) hold
    (by
      intro j _ hj
      obtain ⟨q, hq⟩ := Option.isSome_iff_exists.1 (hread j hj)
      have hcongr : load_elem { h with arrays := h.arrays ++
          [⟨List.replicate (ps.num_parameters + count).toNat none, 0⟩] } ps.parameters j =
          load_elem h ps.parameters j := by
        apply load_elem_congr
        intro a ha
        have hlt : a < h.arrays.length := by
          have := halloc a ha
          rcases Option.isSome_iff_exists.1 this with ⟨c, hc⟩
          exact list_lt_of_getElem? hc
        simp [List.getElem?_append_left hlt]
      rw [hcongr, hq]; simp [hq])
    (by simp)
  have hnat : ((ps.num_parameters.toNat : Nat) : Int) = ps.num_parameters :=
    Int.toNat_of_nonneg hnum
  rw [hnat] at hloop
  have hcnt : 0 + (ps.num_parameters + count).toNat - max 0 ps.num_parameters.toNat
      = count.toNat := by omega
  unfold append_parameters
  simp only [hnn, if_false, malloc_array_ptr, Option.bind_eq_bind, Option.some_bind, hloop, hcnt,
    List.take_zero, List.nil_append, List.set_append_right _ _ (Nat.le_refl _), Nat.sub_self,
    List.set_cons_zero]
  cases hpar : ps.parameters with
  | none => simp [appended_arrays, appended_elems, hpar]
  | some a =>
    obtain ⟨c, hc⟩ := Option.isSome_iff_exists.1 (halloc a hpar)
    have hlt : a < h.arrays.length := list_lt_of_getElem? hc
    simp [appended_arrays, appended_elems, hpar, hc, free_array_ptr,
      List.getElem?_append_left hlt, List.set_append_left _ _ hlt]

/-- C5, at the sample registry: `b` is found, at index 1. -/
theorem find_parameter_first_match_witness :
    AllNamed demo_heap demo_set ∧
    ∃ r, find_parameter demo_heap demo_set "b" = some r ∧ 0 ≤ r ∧
      entry_name demo_heap demo_set r.toNat = some "b" :=
  ⟨by decide,
    match (find_parameter_first_match demo_heap demo_set "b" (by decide)).1 with
    | ⟨r, hr, hiff, hidx, _⟩ =>
      ⟨r, hr, hiff.2 ⟨1, by decide, by decide⟩,
        (hidx (hiff.2 ⟨1, by decide, by decide⟩)).2.1⟩⟩

/-! ## `ensure_parameter` -/

theorem appended_arrays_last (h : Heap) (ps : OfxParamSetStruct) (count : Int) :
    (appended_arrays h ps count)[h.arrays.length]? = some ⟨appended_elems h ps count, 0⟩ := by
  cases hpar : ps.parameters with
  | none => simp [appended_arrays, hpar]
  | some a =>
    cases harr : h.arrays[a]? with
    | none => simp [appended_arrays, hpar, harr]
    | some c =>
      have hlen : (h.arrays.set a { c with frees := c.frees + 1 }).length ≤ h.arrays.length := by
        simp
      simp only [appended_arrays, hpar, harr]
      rw [List.getElem?_append_right hlen]
      simp

theorem appended_elems_old (h : Heap) (ps : OfxParamSetStruct) (count : Int) (j : Nat)
    (hc : 0 ≤ count) (hj : j < ps.num_parameters.toNat) :
    ((appended_elems h ps count)[j]?).join = some ((load_elem h ps.parameters j).getD 0) := by
  have hlt : j < (ps.num_parameters + count).toNat := by omega
  simp [appended_elems, List.getElem?_range', hlt, hj]
  intro hx; omega

theorem appended_elems_new (h : Heap) (ps : OfxParamSetStruct) (count : Int) (j : Nat)
    (hj : ps.num_parameters.toNat ≤ j) (hlt : j < (ps.num_parameters + count).toNat) :
    ((appended_elems h ps count)[j]?).join =
      some (h.params.length + (j - ps.num_parameters.toNat)) := by
  have hnot : ¬ j < ps.num_parameters.toNat := by omega
  simp [appended_elems, List.getElem?_range', hlt, hnot]
  intro hx; omega

theorem preserved_of_append {h g : Heap} {X : List CharArray} {Y : List ParamBlock}
    (hc : g.chars = h.chars ++ X) (hp : g.params = h.params ++ Y) : Preserved h g := by
  constructor
  · intro a c ha
    rw [hc, List.getElem?_append_left (list_lt_of_getElem? ha)]
    exact ha
  · intro q b hb
    rw [hp, List.getElem?_append_left (list_lt_of_getElem? hb)]
    exact hb

theorem load_string_inv {h : Heap} {a : Addr} {s : String} (hs : load_string h a = some s) :
    ∃ c, h.chars[a]? = some c ∧ c.frees = 0 ∧ c.text = some s ∧ c.Fits := by
  unfold load_string at hs
  cases hc : h.chars[a]? with
  | none => simp [hc] at hs
  | some c =>
    by_cases hf : c.frees = 0 ∧ c.Fits
    · refine ⟨c, rfl, hf.1, ?_, hf.2⟩
      simpa [hc, hf.1, hf.2] using hs
    · exfalso
      simp only [hc, if_neg hf] at hs
      exact absurd hs (by simp)

theorem load_param_preserved {h g : Heap} (hpre : Preserved h g) {p : Addr}
    {o : OfxParamStruct} (hp : load_param h p = some o) : load_param g p = some o :=
  load_param_eq (hpre.2 _ _ (load_param_inv hp))

theorem load_string_preserved {h g : Heap} (hpre : Preserved h g) {a : Addr}
    {s : String} (hs : load_string h a = some s) : load_string g a = some s := by
  obtain ⟨c, hc, hf, ht, hfit⟩ := load_string_inv hs
  rw [load_string_eq (hpre.1 _ _ hc) hf hfit, ht]

/-- The name of an entry, split into the three reads it is made of. -/
theorem entry_name_eq_some {h : Heap} {ps : OfxParamSetStruct} {j : Nat} {s : String} :
    entry_name h ps j = some s ↔
      ∃ p o a, load_elem h ps.parameters j = some p ∧ load_param h p = some o ∧
        o.name = some a ∧ load_string h a = some s := by
  unfold entry_name
  constructor
  · intro hs
    cases hp : load_elem h ps.parameters j with
    | none => simp [hp] at hs
    | some p =>
      cases ho : load_param h p with
      | none => simp [hp, ho] at hs
      | some o =>
        cases ha : o.name with
        | none => simp [hp, ho, ha] at hs
        | some a =>
          simp [hp, ho, ha] at hs
          exact ⟨p, o, a, rfl, ho, ha, hs⟩
  · rintro ⟨p, o, a, hp, ho, ha, hs⟩
    simp [hp, ho, ha, hs]

theorem entry_name_preserved {h g : Heap} {ps ps' : OfxParamSetStruct} {j : Nat} {s : String}
    (hpre : Preserved h g)
    (he : load_elem g ps'.parameters j = load_elem h ps.parameters j)
    (hs : entry_name h ps j = some s) : entry_name g ps' j = some s := by
  obtain ⟨p, o, a, hp, ho, ha, hstr⟩ := entry_name_eq_some.1 hs
  exact entry_name_eq_some.2
    ⟨p, o, a, by rw [he, hp], load_param_preserved hpre ho, ha, load_string_preserved hpre hstr⟩

theorem load_elem_appended_old {g h : Heap} {ps : OfxParamSetStruct} {count : Int} {j : Nat}
    (hg : g.arrays = appended_arrays h ps count) (hv : ValidSet h ps) (hc : 0 ≤ count)
    (hj : j < ps.num_parameters.toNat) :
    load_elem g (some h.arrays.length) j = load_elem h ps.parameters j := by
  rw [load_elem_eq (E := appended_elems h ps count) j
    (by rw [hg]; exact appended_arrays_last h ps count), appended_elems_old h ps count j hc hj]
  obtain ⟨q, hq⟩ := Option.isSome_iff_exists.1 (hv.2.2 j hj)
  simp [hq]

theorem load_elem_appended_new {g h : Heap} {ps : OfxParamSetStruct} {count : Int} {j : Nat}
    (hg : g.arrays = appended_arrays h ps count)
    (hj : ps.num_parameters.toNat ≤ j) (hlt : j < (ps.num_parameters + count).toNat) :
    load_elem g (some h.arrays.length) j =
      some (h.params.length + (j - ps.num_parameters.toNat)) := by
  rw [load_elem_eq (E := appended_elems h ps count) j
    (by rw [hg]; exact appended_arrays_last h ps count), appended_elems_new h ps count j hj hlt]

/-! ## `paramDefine` and `paramGetHandle` -/

theorem ensure_parameter_present {h : Heap} {ps : OfxParamSetStruct} {n : String} {k : Nat}
    (hfind : find_parameter h ps n = some (k : Int)) :
    ensure_parameter h ps n = some (h, ps, (k : Int)) := by
  have hne : ¬ ((k : Int) = -1) := by omega
  simp [ensure_parameter, hfind, hne]

theorem paramDefine_present {h : Heap} {ps : OfxParamSetStruct} {n : String} {j : Nat}
    (k : ParamTypeNames) (paramType : String)
    (propertySet : OutPtr (Option OfxPropertySetHandle))
    (hfind : find_parameter h ps n = some (j : Int)) :
    paramDefine k h ps paramType n propertySet =
      some { heap := h, paramSet := ps, status := OfxStatus.kOfxStatErrExists,
             propertySet := propertySet } := by
  have hne : ¬ ((-1 : Int) = (j : Int)) := by omega
  simp [paramDefine, hfind, hne]

/-! ## The registry contract -/

/-- C3. On a registry whose entries all have names, `paramGetHandle` with a
name that no entry has returns `kOfxStatErrUnknown` (the value the code
comments as "parameter not found", different from `kOfxStatOK`) and leaves both
output variables as they were; the function has no access that writes the
heap or the registry. -/
theorem paramGetHandle_absent (h : Heap) (ps : OfxParamSetStruct) (name : String)
    (param : OutPtr OfxParamHandle) (propertySet : OutPtr (Option OfxPropertySetHandle))
    (hn : AllNamed h ps) (ha : Absent h ps name) :
    paramGetHandle h ps name param propertySet =
      some { status := OfxStatus.kOfxStatErrUnknown, param := param,
             propertySet := propertySet } ∧
    OfxStatus.kOfxStatErrUnknown ≠ OfxStatus.kOfxStatOK := by
  refine ⟨?_, by decide⟩
  simp [paramGetHandle, find_parameter_of_absent hn ha]

/-- C3, at the sample registry and the name `missing`. -/
theorem paramGetHandle_absent_witness :
    AllNamed demo_heap demo_set ∧ Absent demo_heap demo_set "missing" ∧
    paramGetHandle demo_heap demo_set "missing" (some none) (some none) =
      some { status := OfxStatus.kOfxStatErrUnknown, param := some none,
             propertySet := some none } :=
  ⟨by decide, by decide,
    (paramGetHandle_absent demo_heap demo_set "missing" (some none) (some none)
      (by decide) (by decide)).1⟩

/-- C7. On a well-formed registry with `n` entries and for `count ≥ 0`,
`append_parameters` returns a registry with `n + count` entries.  No `char`
block changes and the old parameter objects stay where they are, unchanged
(the new objects are added behind them); entry `j < n` of the new array is the
same pointer as before, so it designates the same object with the same name,
type and values; entry `j ≥ n` points to a new object of type double without
a name and with an empty bag. -/
theorem append_parameters_frame (h : Heap) (ps : OfxParamSetStruct) (count : Int)
    (hv : ValidSet h ps) (hc : 0 ≤ count) :
    ∃ (h1 : Heap) (ps1 : OfxParamSetStruct),
      append_parameters h ps count = some (h1, ps1) ∧
      ps1.num_parameters = ps.num_parameters + count ∧
      ps1.effect_properties = ps.effect_properties ∧
      h1.chars = h.chars ∧
      h1.params = h.params ++ List.replicate count.toNat ⟨init_obj, 0⟩ ∧
      (∀ j, j < ps.num_parameters.toNat →
        load_elem h1 ps1.parameters j = load_elem h ps.parameters j) ∧
      (∀ p o, load_param h p = some o → load_param h1 p = some o) ∧
      (∀ j, j < ps.num_parameters.toNat → ∀ s, entry_name h ps j = some s →
        entry_name h1 ps1 j = some s) ∧
      (∀ j, ps.num_parameters.toNat ≤ j → j < (ps.num_parameters + count).toNat →
        ∃ q o, load_elem h1 ps1.parameters j = some q ∧
          q = h.params.length + (j - ps.num_parameters.toNat) ∧
          load_param h1 q = some o ∧ o.type = ParamType.PARAM_TYPE_DOUBLE ∧
          o.name = none ∧ o.properties = init_properties) := by
  have hpre : Preserved h
      { chars := h.chars, params := h.params ++ List.replicate count.toNat ⟨init_obj, 0⟩,
        arrays := appended_arrays h ps count } :=
    preserved_of_append (X := []) (by simp) rfl
  refine ⟨_, _, append_parameters_eq hv hc, rfl, rfl, rfl, rfl, ?_, ?_, ?_, ?_⟩
  · intro j hj
    exact load_elem_appended_old rfl hv hc hj
  · intro p o ho
    exact load_param_preserved hpre ho
  · intro j hj s hs
    exact entry_name_preserved hpre (load_elem_appended_old rfl hv hc hj) hs
  · intro j hj hlt
    refine ⟨_, init_obj, load_elem_appended_new rfl hj hlt, rfl, ?_, rfl, rfl, rfl⟩
    apply load_param_eq
    have hk : j - ps.num_parameters.toNat < count.toNat := by omega
    simp only []
    rw [List.getElem?_append_right (Nat.le_add_right _ _)]
    simp [hk]

/-- C7, at the sample registry (a double with value `1.0`, an integer with
value `2`) and `count = 3`: five entries, the first two objects unchanged. -/
theorem append_parameters_frame_witness :
    ValidSet demo_heap demo_set ∧
    ∃ (h1 : Heap) (ps1 : OfxParamSetStruct),
      append_parameters demo_heap demo_set 3 = some (h1, ps1) ∧
      ps1.num_parameters = 5 ∧
      load_elem h1 ps1.parameters 0 = some 0 ∧ load_elem h1 ps1.parameters 1 = some 1 ∧
      load_param h1 0 = load_param demo_heap 0 ∧ load_param h1 1 = load_param demo_heap 1 ∧
      entry_name h1 ps1 0 = some "a" ∧ entry_name h1 ps1 1 = some "b" :=
  ⟨by decide,
    match append_parameters_frame demo_heap demo_set 3 (by decide) (by decide) with
    | ⟨h1, ps1, heq, hnum, _, _, _, helem, hobj, hname, _⟩ =>
      ⟨h1, ps1, heq, hnum,
        (helem 0 (by decide)).trans (by decide), (helem 1 (by decide)).trans (by decide),
        (hobj 0 _ rfl).trans rfl, (hobj 1 _ rfl).trans rfl,
        hname 0 (by decide) "a" (by decide), hname 1 (by decide) "b" (by decide)⟩⟩

/-! ## Values and types of one parameter -/

/-- C8. On a live parameter object of type double, `paramSetValue` with the
double `v` returns `kOfxStatOK` and a following `paramGetValue` returns
`kOfxStatOK` and writes exactly `v` to its output variable; likewise for type
integer and an integer `v`.  The set changes slot 0 of that object and nothing
else in the heap: name, type, the other slots and the bag are as before. -/
theorem paramSetValue_paramGetValue (h : Heap) (p : Addr) (o : OfxParamStruct)
    (hp : load_param h p = some o) :
    (o.type = ParamType.PARAM_TYPE_DOUBLE → ∀ (v old : Double) (rest : List VaArg),
      ∃ h1, paramSetValue h p (VaArg.double v :: rest) = some (h1, OfxStatus.kOfxStatOK) ∧
        paramGetValue h1 p [VaArg.double_ptr (some old)] =
          some (OfxStatus.kOfxStatOK, [VaArg.double_ptr (some v)]) ∧
        load_param h1 p = some { o with value0 := ParamValue.as_double v } ∧
        h1 = { h with params :=
                 h.params.set p ⟨{ o with value0 := ParamValue.as_double v }, 0⟩ }) ∧
    (o.type = ParamType.PARAM_TYPE_INT → ∀ (v old : Int) (rest : List VaArg),
      ∃ h1, paramSetValue h p (VaArg.int v :: rest) = some (h1, OfxStatus.kOfxStatOK) ∧
        paramGetValue h1 p [VaArg.int_ptr (some old)] =
          some (OfxStatus.kOfxStatOK, [VaArg.int_ptr (some v)]) ∧
        load_param h1 p = some { o with value0 := ParamValue.as_int v } ∧
        h1 = { h with params :=
                 h.params.set p ⟨{ o with value0 := ParamValue.as_int v }, 0⟩ }) := by
  have hblk := load_param_inv hp
  have hlt : p < h.params.length := list_lt_of_getElem? hblk
  constructor
  · intro ht v old rest
    have hget : load_param
        { h with params := h.params.set p ⟨{ o with value0 := ParamValue.as_double v }, 0⟩ } p =
        some { o with value0 := ParamValue.as_double v } :=
      load_param_eq (by simp [List.getElem?_set_self hlt])
    refine ⟨_, ?_, ?_, hget, rfl⟩
    · simp [paramSetValue, hp, parameter_type_dimensions, ht, paramSetValue_loop,
        OfxParamStruct.set_value, store_param_eq _ hblk]
    · unfold paramGetValue
      rw [hget]
      simp [parameter_type_dimensions, ht, paramGetValue_loop,
        OfxParamStruct.get_value, ParamValue.read_as_double]
  · intro ht v old rest
    have hget : load_param
        { h with params := h.params.set p ⟨{ o with value0 := ParamValue.as_int v }, 0⟩ } p =
        some { o with value0 := ParamValue.as_int v } :=
      load_param_eq (by simp [List.getElem?_set_self hlt])
    refine ⟨_, ?_, ?_, hget, rfl⟩
    · simp [paramSetValue, hp, parameter_type_dimensions, ht, paramSetValue_loop,
        OfxParamStruct.set_value, store_param_eq _ hblk]
    · unfold paramGetValue
      rw [hget]
      simp [parameter_type_dimensions, ht, paramGetValue_loop,
        OfxParamStruct.get_value, ParamValue.read_as_int]

/-- C8, at the sample heap: `3.14` (bit pattern `0x40091EB851EB851F`) on the
double parameter at address 0, `42` on the integer parameter at address 1. -/
theorem paramSetValue_paramGetValue_witness :
    (∃ h1, paramSetValue demo_heap 0 [VaArg.double ⟨0x40091EB851EB851F⟩] =
        some (h1, OfxStatus.kOfxStatOK) ∧
      paramGetValue h1 0 [VaArg.double_ptr (some ⟨0⟩)] =
        some (OfxStatus.kOfxStatOK, [VaArg.double_ptr (some ⟨0x40091EB851EB851F⟩)])) ∧
    (∃ h1, paramSetValue demo_heap 1 [VaArg.int 42] = some (h1, OfxStatus.kOfxStatOK) ∧
      paramGetValue h1 1 [VaArg.int_ptr (some 0)] =
        some (OfxStatus.kOfxStatOK, [VaArg.int_ptr (some 42)])) :=
  ⟨match (paramSetValue_paramGetValue demo_heap 0 _ rfl).1 rfl ⟨0x40091EB851EB851F⟩ ⟨0⟩ [] with
    | ⟨h1, hset, hget, _⟩ => ⟨h1, hset, hget⟩,
   match (paramSetValue_paramGetValue demo_heap 1 _ rfl).2 rfl 42 0 [] with
    | ⟨h1, hset, hget, _⟩ => ⟨h1, hset, hget⟩⟩

/-- C9. On a live parameter object of type string that owns the live text
buffer `b` (whatever it holds), `parameter_set_type` to integer and then to
string both return; afterwards the type is string again and slot 0 points to a
new one-byte buffer holding the empty string.  Counting allocations and
frees: the first call allocates nothing and frees `b` once, the second call
allocates the final buffer and frees nothing, and every other `char` block is
as it was.  So `b` has been freed exactly once and the final buffer is the one
live text buffer of the parameter. -/
theorem parameter_set_type_text_int_text (h : Heap) (p : Addr) (o : OfxParamStruct) (b : Addr)
    (c : CharArray) (hp : load_param h p = some o)
    (ht : o.type = ParamType.PARAM_TYPE_STRING)
    (hv : o.value0 = ParamValue.as_char (some b))
    (hb : h.chars[b]? = some c) (hlive : c.frees = 0) :
    ∃ h1 h2, parameter_set_type h p ParamType.PARAM_TYPE_INT = some h1 ∧
      parameter_set_type h1 p ParamType.PARAM_TYPE_STRING = some h2 ∧
      h1.chars = h.chars.set b { c with frees := 1 } ∧
      h2.chars = h.chars.set b { c with frees := 1 } ++ [⟨1, some "", 0⟩] ∧
      load_param h2 p = some { o with value0 := ParamValue.as_char (some h.chars.length) } ∧
      load_string h2 h.chars.length = some "" ∧
      h2.chars[b]? = some { c with frees := 1 } ∧
      (∀ a, a ≠ b → a < h.chars.length → h2.chars[a]? = h.chars[a]?) ∧
      (∀ q, q ≠ p → h2.params[q]? = h.params[q]?) ∧
      h2.arrays = h.arrays := by
  have hblk := load_param_inv hp
  have hlt : p < h.params.length := list_lt_of_getElem? hblk
  have hbl : b < h.chars.length := list_lt_of_getElem? hb
  have h1eq := parameter_set_type_text ParamType.PARAM_TYPE_INT hblk ht hv hb
  simp only [reduceCtorEq, if_false] at h1eq
  have h2eq := parameter_set_type_scalar
    (h := { chars := h.chars.set b { c with frees := c.frees + 1 }
            params := h.params.set p
              ⟨{ o with type := ParamType.PARAM_TYPE_INT, value0 := ParamValue.as_char none }, 0⟩
            arrays := h.arrays })
    (p := p)
    (o := { o with type := ParamType.PARAM_TYPE_INT, value0 := ParamValue.as_char none })
    ParamType.PARAM_TYPE_STRING (by simp [List.getElem?_set_self hlt]) (by simp)
  simp only [reduceCtorEq, if_false, if_true, List.set_set, List.length_set] at h2eq
  refine ⟨_, _, h1eq, h2eq, by simp [hlive], by simp [hlive], ?_, ?_, ?_, ?_, ?_, rfl⟩
  · apply load_param_eq
    simp only [List.getElem?_set_self hlt, ← ht]
  · rw [load_string_eq (c := ⟨1, some "", 0⟩) _ rfl (by decide)]
    have hlen : (h.chars.set b { c with frees := c.frees + 1 }).length = h.chars.length := by
      simp
    simp only []
    rw [← hlen]
    exact List.getElem?_concat_length _ _
  · simp only []
    rw [List.getElem?_append_left (by simpa using hbl), List.getElem?_set_self hbl, hlive]
  · intro a ha hal
    simp only []
    rw [List.getElem?_append_left (by simpa using hal), List.getElem?_set_ne (Ne.symm ha)]
  · intro q hq
    simp only []
    rw [List.getElem?_set_ne (Ne.symm hq)]

/-- C9, at the sample string parameter whose text is `hello`. -/
theorem parameter_set_type_text_int_text_witness :
    ∃ h1 h2, parameter_set_type text_heap 0 ParamType.PARAM_TYPE_INT = some h1 ∧
      parameter_set_type h1 0 ParamType.PARAM_TYPE_STRING = some h2 ∧
      h2.chars = [⟨2, some "t", 0⟩, ⟨6, some "hello", 1⟩, ⟨1, some "", 0⟩] ∧
      load_string h2 2 = some "" :=
  match parameter_set_type_text_int_text text_heap 0 _ 1 ⟨6, some "hello", 0⟩ rfl rfl rfl rfl rfl
    with
  | ⟨h1, h2, e1, e2, _, hchars, _, hstr, _⟩ => ⟨h1, h2, e1, e2, hchars, hstr⟩

/-! ## The text part of `deep_copy_parameter` -/

theorem source_text_eq_some {g : Heap} {s : OfxParamStruct} {st : String}
    (h : source_text g s = some st) :
    ∃ tb, s.value0 = ParamValue.as_char (some tb) ∧ load_string g tb = some st := by
  unfold source_text at h
  split at h
  · next tb heq => exact ⟨tb, heq, h⟩
  · simp at h

theorem deep_copy_parameter_text_eq {g : Heap} {destination source : Addr}
    {s d : OfxParamStruct} (hs : g.params[source]? = some ⟨s, 0⟩)
    (hd : g.params[destination]? = some ⟨d, 0⟩) (hne : destination ≠ source)
    (hready : d.type = ParamType.PARAM_TYPE_STRING → (source_text g s).isSome = true) :
    deep_copy_parameter_text g destination source =
      some (if d.type = ParamType.PARAM_TYPE_STRING then
        { chars := g.chars ++
            (match source_text g s with
             | some st => [⟨strlen st + 1, some st, 0⟩]
             | none => [])
          params := g.params.set destination
            ⟨{ d with value0 := ParamValue.as_char (some g.chars.length) }, 0⟩
          arrays := g.arrays }
      else g) := by
  have hlt : destination < g.params.length := list_lt_of_getElem? hd
  by_cases ht : d.type = ParamType.PARAM_TYPE_STRING
  · obtain ⟨st, hst⟩ := Option.isSome_iff_exists.1 (hready ht)
    obtain ⟨tb, hv, hload⟩ := source_text_eq_some hst
    obtain ⟨ct, hct, hfree, htext, hfit⟩ := load_string_inv hload
    have htb : tb < g.chars.length := list_lt_of_getElem? hct
    have hsize : (Int.ofNat (strlen st) + 1).toNat = strlen st + 1 := by
      simp only [Int.ofNat_eq_coe]; omega
    have hrealloc := @parameter_realloc_string_null
      { g with params := (g.params.set destination
                ⟨{ d with value0 := ParamValue.as_char none }, 0⟩) }
      destination { d with value0 := ParamValue.as_char none }
      (Int.ofNat (strlen st) + 1)
      (by simp [List.getElem?_set_self hlt]) rfl
      (by simp only [Int.ofNat_eq_coe]; omega)
    simp only [List.set_set, hsize] at hrealloc
    unfold deep_copy_parameter_text
    simp only [load_param_eq hd, Option.bind_eq_bind, Option.some_bind, if_pos ht,
      text_ptr_eq hs hv, hload, modify_param_eq _ hd, hrealloc, hst]
    rw [text_ptr_eq (o := { d with value0 := ParamValue.as_char (some g.chars.length) })
      (b := some g.chars.length) (by simp [List.getElem?_set_self hlt]) rfl]
    simp only [Option.some_bind]
    rw [text_ptr_eq (o := s) (b := some tb) (by simp [List.getElem?_set_ne hne, hs]) hv]
    simp only [Option.some_bind]
    rw [load_string_eq (c := ct) (by simp [List.getElem?_append_left htb, hct]) hfree hfit,
      htext]
    simp only [Option.some_bind]
    rw [store_string_eq (c := ⟨strlen st + 1, some "", 0⟩) _ (by simp) rfl (Nat.le_refl _)]
    simp
  · simp [deep_copy_parameter_text, load_param_eq hd, ht]

/-! ## The initialised registry -/

theorem valid_init (h : Heap) (d : OfxParamSetStruct) : ValidSet h (init_parameter_set d) := by
  refine ⟨by simp [init_parameter_set], ?_, ?_⟩
  · intro a ha; simp [init_parameter_set] at ha
  · intro i hi; simp [init_parameter_set] at hi

/-! ## The unsupported entry points -/

/-- C14. Each of the twelve temporal and editing entry points returns
`kOfxStatErrUnsupported` (a status different from `kOfxStatOK`) for every
input, a null handle or null output pointer included.  Their bodies contain
no memory access, so the embedding gives them no heap and no output variable
to change. -/
theorem temporal_entry_points_unsupported :
    (∀ p t v, paramGetValueAtTime p t v = OfxStatus.kOfxStatErrUnsupported) ∧
    (∀ p t v, paramGetDerivative p t v = OfxStatus.kOfxStatErrUnsupported) ∧
    (∀ p t1 t2 v, paramGetIntegral p t1 t2 v = OfxStatus.kOfxStatErrUnsupported) ∧
    (∀ p t v, paramSetValueAtTime p t v = OfxStatus.kOfxStatErrUnsupported) ∧
    (∀ p n, paramGetNumKeys p n = OfxStatus.kOfxStatErrUnsupported) ∧
    (∀ p n t, paramGetKeyTime p n t = OfxStatus.kOfxStatErrUnsupported) ∧
    (∀ p t d i, paramGetKeyIndex p t d i = OfxStatus.kOfxStatErrUnsupported) ∧
    (∀ p t, paramDeleteKey p t = OfxStatus.kOfxStatErrUnsupported) ∧
    (∀ p, paramDeleteAllKeys p = OfxStatus.kOfxStatErrUnsupported) ∧
    (∀ p q t r, paramCopy p q t r = OfxStatus.kOfxStatErrUnsupported) ∧
    (∀ s n, paramEditBegin s n = OfxStatus.kOfxStatErrUnsupported) ∧
    (∀ s, paramEditEnd s = OfxStatus.kOfxStatErrUnsupported) ∧
    OfxStatus.kOfxStatErrUnsupported ≠ OfxStatus.kOfxStatOK :=
  ⟨fun _ _ _ => rfl, fun _ _ _ => rfl, fun _ _ _ _ => rfl, fun _ _ _ => rfl, fun _ _ => rfl,
    fun _ _ _ => rfl, fun _ _ _ _ => rfl, fun _ _ => rfl, fun _ => rfl, fun _ _ _ _ => rfl,
    fun _ _ => rfl, fun _ => rfl, by decide⟩

/-! ## More on one parameter -/

/-- The three ways `parameter_set_type` can return on a live object `o`. -/
theorem parameter_set_type_cases {h h1 : Heap} {p : Addr} {o : OfxParamStruct}
    {t : ParamType} (hp : h.params[p]? = some ⟨o, 0⟩)
    (hs : parameter_set_type h p t = some h1) :
    (o.type = t ∧ h1 = h) ∨
    (o.type ≠ t ∧ o.type ≠ ParamType.PARAM_TYPE_STRING ∧
      h1 = (if t = ParamType.PARAM_TYPE_STRING then
          { chars := h.chars ++ [⟨1, some "", 0⟩]
            params := h.params.set p
              ⟨{ o with type := t, value0 := ParamValue.as_char (some h.chars.length) }, 0⟩
            arrays := h.arrays }
        else { h with params := h.params.set p ⟨{ o with type := t }, 0⟩ })) ∨
    (o.type ≠ t ∧ o.type = ParamType.PARAM_TYPE_STRING ∧
      ∃ (b : Nat) (c : CharArray), o.value0 = ParamValue.as_char (some b) ∧
        h.chars[b]? = some c ∧
        h1 = { chars := h.chars.set b { c with frees := c.frees + 1 }
               params := h.params.set p
                 ⟨{ o with type := t, value0 := ParamValue.as_char none }, 0⟩
               arrays := h.arrays }) := by
  by_cases hsame : o.type = t
  · left
    have : parameter_set_type h p t = some h := by
      simp [parameter_set_type, load_param_eq hp, hsame]
    rw [this] at hs
    exact ⟨hsame, (Option.some.inj hs).symm⟩
  · right
    by_cases hstr : o.type = ParamType.PARAM_TYPE_STRING
    · right
      have hty : ¬ t = ParamType.PARAM_TYPE_STRING := by
        intro e; exact hsame (by rw [hstr, e])
      cases hv : o.value0 with
      | as_char old =>
        cases old with
        | none =>
          simp [parameter_set_type, load_param_eq hp, hsame, hstr, hv,
            ParamValue.read_as_char] at hs
          exact absurd hs.1.symm hty
        | some b =>
          cases hblk : h.chars[b]? with
          | none =>
            simp [parameter_set_type, load_param_eq hp, hsame, hstr, hv,
              ParamValue.read_as_char, free_array_char, hblk] at hs
            exact absurd hs.1.symm hty
          | some c =>
            rw [parameter_set_type_text t hp hstr hv hblk] at hs
            simp only [hty, if_false, Option.some.injEq] at hs
            exact ⟨hsame, hstr, b, c, rfl, hblk, hs.symm⟩
      | indeterminate =>
        simp [parameter_set_type, load_param_eq hp, hsame, hstr, hv,
          ParamValue.read_as_char] at hs
        exact absurd hs.1.symm hty
      | as_double d =>
        simp [parameter_set_type, load_param_eq hp, hsame, hstr, hv,
          ParamValue.read_as_char] at hs
        exact absurd hs.1.symm hty
      | as_int n =>
        simp [parameter_set_type, load_param_eq hp, hsame, hstr, hv,
          ParamValue.read_as_char] at hs
        exact absurd hs.1.symm hty
    · left
      rw [parameter_set_type_scalar t hp hstr] at hs
      simp only [hsame, if_false, Option.some.injEq] at hs
      exact ⟨hsame, hstr, hs.symm⟩

/-- After `parameter_set_type` returned, the object is live and has the type
asked for. -/
theorem parameter_set_type_type {h h1 : Heap} {p : Addr} {o : OfxParamStruct}
    {t : ParamType} (hp : h.params[p]? = some ⟨o, 0⟩)
    (hs : parameter_set_type h p t = some h1) :
    ∃ o1, h1.params[p]? = some ⟨o1, 0⟩ ∧ o1.type = t := by
  have hlt : p < h.params.length := list_lt_of_getElem? hp
  rcases parameter_set_type_cases hp hs with ⟨hty, he⟩ | ⟨_, _, he⟩ | ⟨_, _, b, c, _, _, he⟩
  · subst he; exact ⟨o, hp, hty⟩
  · subst he
    by_cases hstr : t = ParamType.PARAM_TYPE_STRING
    · simp only [hstr, if_true]
      exact ⟨{ o with type := ParamType.PARAM_TYPE_STRING
                      value0 := ParamValue.as_char (some h.chars.length) },
        by simp [List.getElem?_set_self hlt], rfl⟩
    · simp only [hstr, if_false]
      exact ⟨{ o with type := t }, by simp [List.getElem?_set_self hlt], rfl⟩
  · subst he
    exact ⟨{ o with type := t, value0 := ParamValue.as_char none },
      by simp [List.getElem?_set_self hlt], rfl⟩

/-- C16. On a live parameter object whose type is already `t`,
`parameter_set_type` with `t` returns the heap it was given: the object, its
text buffer and every other block are as they were, nothing is allocated or
freed.  And for every live object and every `t`, when the first
`parameter_set_type` with `t` returns, a second one returns the same heap as
the first; the first one does return when the object is not of type string or
owns an allocated text buffer. -/
theorem parameter_set_type_idempotent (h : Heap) (p : Addr) (o : OfxParamStruct)
    (t : ParamType) (hp : load_param h p = some o) :
    (o.type = t → parameter_set_type h p t = some h) ∧
    (∀ h1, parameter_set_type h p t = some h1 → parameter_set_type h1 p t = some h1) ∧
    ((o.type ≠ ParamType.PARAM_TYPE_STRING ∨
        ∃ b c, o.value0 = ParamValue.as_char (some b) ∧ h.chars[b]? = some c) →
      ∃ h1, parameter_set_type h p t = some h1) := by
  have hblk := load_param_inv hp
  refine ⟨?_, ?_, ?_⟩
  · intro hty
    simp [parameter_set_type, hp, hty]
  · intro h1 hs
    obtain ⟨o1, ho1, hty1⟩ := parameter_set_type_type hblk hs
    simp [parameter_set_type, load_param_eq ho1, hty1]
  · intro hwf
    by_cases hstr : o.type = ParamType.PARAM_TYPE_STRING
    · rcases hwf with hns | ⟨b, c, hv, hb⟩
      · exact absurd hstr hns
      · exact ⟨_, parameter_set_type_text t hblk hstr hv hb⟩
    · exact ⟨_, parameter_set_type_scalar t hblk hstr⟩

/-- C16, at the sample string parameter: setting type string is a no-op, and
setting type integer twice equals setting it once. -/
theorem parameter_set_type_idempotent_witness :
    parameter_set_type text_heap 0 ParamType.PARAM_TYPE_STRING = some text_heap ∧
    ∃ h1, parameter_set_type text_heap 0 ParamType.PARAM_TYPE_INT = some h1 ∧
      parameter_set_type h1 0 ParamType.PARAM_TYPE_INT = some h1 := by
  refine ⟨(parameter_set_type_idempotent text_heap 0 _ ParamType.PARAM_TYPE_STRING rfl).1 rfl,
    ?_⟩
  obtain ⟨h1, hs⟩ := (parameter_set_type_idempotent text_heap 0 _ ParamType.PARAM_TYPE_INT
    rfl).2.2 (Or.inr ⟨1, ⟨6, some "hello", 0⟩, rfl, rfl⟩)
  exact ⟨h1, hs,
    (parameter_set_type_idempotent text_heap 0 _ ParamType.PARAM_TYPE_INT rfl).2.1 h1 hs⟩

/-- C17. On a live parameter object of type string that owns the live text
buffer `b` (whatever it holds) and for `size ≥ 1`, `parameter_realloc_string`
returns; slot 0 then points to a block that did not exist before, of exactly
`size` bytes, live, holding the empty string (which fits); the block `b` has
been freed exactly once and can no longer be read; name, type, the other slots
and the bag of the object are unchanged, and so is every other block. -/
theorem parameter_realloc_string_destructive (h : Heap) (p : Addr) (o : OfxParamStruct)
    (b : Nat) (c : CharArray) (size : Int)
    (hp : load_param h p = some o) (_ht : o.type = ParamType.PARAM_TYPE_STRING)
    (hv : o.value0 = ParamValue.as_char (some b))
    (hb : h.chars[b]? = some c) (hlive : c.frees = 0) (hsize : 1 ≤ size) :
    ∃ h1, parameter_realloc_string h p size = some h1 ∧
      load_param h1 p = some { o with value0 := ParamValue.as_char (some h.chars.length) } ∧
      h.chars[h.chars.length]? = none ∧
      h1.chars[h.chars.length]? = some ⟨size.toNat, some "", 0⟩ ∧
      ((size.toNat : Int) = size) ∧
      (⟨size.toNat, some "", 0⟩ : CharArray).Fits ∧
      load_string h1 h.chars.length = some "" ∧
      h1.chars[b]? = some { c with frees := 1 } ∧
      load_string h1 b = none ∧
      h1.chars.length = h.chars.length + 1 ∧
      (∀ a, a ≠ b → a < h.chars.length → h1.chars[a]? = h.chars[a]?) ∧
      (∀ q, q ≠ p → h1.params[q]? = h.params[q]?) ∧
      h1.arrays = h.arrays := by
  have hblk := load_param_inv hp
  have hlt : p < h.params.length := list_lt_of_getElem? hblk
  have hbl : b < h.chars.length := list_lt_of_getElem? hb
  have hlen : (h.chars.set b { c with frees := c.frees + 1 }).length = h.chars.length := by
    simp
  have hnew : (h.chars.set b { c with frees := c.frees + 1 } ++
      [(⟨size.toNat, some "", 0⟩ : CharArray)])[h.chars.length]? =
      some ⟨size.toNat, some "", 0⟩ := by
    rw [← hlen]
    exact List.getElem?_concat_length _ _
  have hold : (h.chars.set b { c with frees := c.frees + 1 } ++
      [(⟨size.toNat, some "", 0⟩ : CharArray)])[b]? = some { c with frees := 1 } := by
    rw [List.getElem?_append_left (by rw [hlen]; exact hbl), List.getElem?_set_self hbl, hlive]
  refine ⟨_, parameter_realloc_string_owned hblk hv hb (by omega), ?_, ?_, hnew, by omega,
    ?_, ?_, hold, ?_, by simp, ?_, ?_, rfl⟩
  · exact load_param_eq (by simp [List.getElem?_set_self hlt])
  · exact List.getElem?_eq_none (Nat.le_refl _)
  · show (0 : Nat) + 1 ≤ size.toNat
    omega
  · rw [load_string_eq hnew rfl (by show (0 : Nat) + 1 ≤ size.toNat; omega)]
  · simp [load_string, hold]
  · intro a ha hal
    simp only []
    rw [List.getElem?_append_left (by rw [hlen]; exact hal), List.getElem?_set_ne (Ne.symm ha)]
  · intro q hq
    simp only []
    rw [List.getElem?_set_ne (Ne.symm hq)]

/-- C17, at the sample string parameter whose text is `hello`, with size 8. -/
theorem parameter_realloc_string_destructive_witness :
    ∃ h1, parameter_realloc_string text_heap 0 8 = some h1 ∧
      h1.chars = [⟨2, some "t", 0⟩, ⟨6, some "hello", 1⟩, ⟨8, some "", 0⟩] := by
  obtain ⟨h1, hs, _⟩ := parameter_realloc_string_destructive text_heap 0 _ 1
    ⟨6, some "hello", 0⟩ 8 rfl rfl rfl rfl rfl (by decide)
  refine ⟨h1, hs, ?_⟩
  have : parameter_realloc_string text_heap 0 8 =
      some { chars := [⟨2, some "t", 0⟩, ⟨6, some "hello", 1⟩, ⟨8, some "", 0⟩]
             params := [⟨{ init_obj with type := ParamType.PARAM_TYPE_STRING
                                         name := some 0
                                         value0 := ParamValue.as_char (some 2) }, 0⟩]
             arrays := [⟨[some 0], 0⟩] } := by decide
  rw [this] at hs
  rw [← Option.some.inj hs]

/-- C18. On a live parameter object of type string or unknown, `paramSetValue`
returns `kOfxStatOK` and the heap it was given, whatever the arguments, so the
object (name, type, slots, text) is unchanged; and `paramGetValue` returns
`kOfxStatOK` and leaves every variadic argument, so every output variable, as
it was. -/
theorem paramSetValue_paramGetValue_unwired (h : Heap) (p : Addr) (o : OfxParamStruct)
    (hp : load_param h p = some o)
    (ht : o.type = ParamType.PARAM_TYPE_STRING ∨ o.type = ParamType.PARAM_TYPE_UNKNOWN) :
    (∀ args, paramSetValue h p args = some (h, OfxStatus.kOfxStatOK)) ∧
    (∀ valist, paramGetValue h p valist = some (OfxStatus.kOfxStatOK, valist)) := by
  rcases ht with ht | ht
  · exact ⟨fun args => by
        simp [paramSetValue, hp, parameter_type_dimensions, ht, paramSetValue_loop],
      fun valist => by
        simp [paramGetValue, hp, parameter_type_dimensions, ht, paramGetValue_loop]⟩
  · exact ⟨fun args => by
        simp [paramSetValue, hp, parameter_type_dimensions, ht, paramSetValue_loop],
      fun valist => by
        simp [paramGetValue, hp, parameter_type_dimensions, ht, paramGetValue_loop]⟩

/-- C18, at the sample string parameter: a double argument is ignored and a
double output variable keeps its value. -/
theorem paramSetValue_paramGetValue_unwired_witness :
    paramSetValue text_heap 0 [VaArg.double ⟨7⟩] = some (text_heap, OfxStatus.kOfxStatOK) ∧
    paramGetValue text_heap 0 [VaArg.double_ptr (some ⟨5⟩)] =
      some (OfxStatus.kOfxStatOK, [VaArg.double_ptr (some ⟨5⟩)]) :=
  ⟨(paramSetValue_paramGetValue_unwired text_heap 0 _ rfl (Or.inl rfl)).1 _,
    (paramSetValue_paramGetValue_unwired text_heap 0 _ rfl (Or.inl rfl)).2 _⟩

/-! ## The storage-ownership state machine -/

/-- The ways `paramSetValue` can return on a live object `o`. -/
theorem paramSetValue_cases {h h1 : Heap} {p : Addr} {o : OfxParamStruct}
    {args : List VaArg} {status : OfxStatus} (hp : h.params[p]? = some ⟨o, 0⟩)
    (hs : paramSetValue h p args = some (h1, status)) :
    status = OfxStatus.kOfxStatOK ∧
    ((o.type = ParamType.PARAM_TYPE_DOUBLE ∧ ∃ d rest, args = VaArg.double d :: rest ∧
        h1 = { h with params :=
                 h.params.set p ⟨{ o with value0 := ParamValue.as_double d }, 0⟩ }) ∨
     (o.type = ParamType.PARAM_TYPE_INT ∧ ∃ n rest, args = VaArg.int n :: rest ∧
        h1 = { h with params :=
                 h.params.set p ⟨{ o with value0 := ParamValue.as_int n }, 0⟩ }) ∨
     ((o.type = ParamType.PARAM_TYPE_STRING ∨ o.type = ParamType.PARAM_TYPE_UNKNOWN) ∧
        h1 = h)) := by
  unfold paramSetValue at hs
  rw [load_param_eq hp] at hs
  cases ht : o.type with
  | PARAM_TYPE_DOUBLE =>
    cases args with
    | nil =>
      simp [parameter_type_dimensions, ht, paramSetValue_loop, load_param_eq hp] at hs
    | cons a rest =>
      cases a with
      | double d =>
        simp [parameter_type_dimensions, ht, paramSetValue_loop, load_param_eq hp,
          OfxParamStruct.set_value, store_param_eq _ hp] at hs
        obtain ⟨hk1, hst⟩ := hs
        exact ⟨hst.symm, Or.inl ⟨rfl, d, rest, rfl, hk1.symm⟩⟩
      | int n =>
        simp [parameter_type_dimensions, ht, paramSetValue_loop, load_param_eq hp] at hs
      | double_ptr o =>
        simp [parameter_type_dimensions, ht, paramSetValue_loop, load_param_eq hp] at hs
      | int_ptr o =>
        simp [parameter_type_dimensions, ht, paramSetValue_loop, load_param_eq hp] at hs
  | PARAM_TYPE_INT =>
    cases args with
    | nil =>
      simp [parameter_type_dimensions, ht, paramSetValue_loop, load_param_eq hp] at hs
    | cons a rest =>
      cases a with
      | int n =>
        simp [parameter_type_dimensions, ht, paramSetValue_loop, load_param_eq hp,
          OfxParamStruct.set_value, store_param_eq _ hp] at hs
        obtain ⟨hk1, hst⟩ := hs
        exact ⟨hst.symm, Or.inr (Or.inl ⟨rfl, n, rest, rfl, hk1.symm⟩)⟩
      | double d =>
        simp [parameter_type_dimensions, ht, paramSetValue_loop, load_param_eq hp] at hs
      | double_ptr o =>
        simp [parameter_type_dimensions, ht, paramSetValue_loop, load_param_eq hp] at hs
      | int_ptr o =>
        simp [parameter_type_dimensions, ht, paramSetValue_loop, load_param_eq hp] at hs
  | PARAM_TYPE_STRING =>
    simp [parameter_type_dimensions, ht, paramSetValue_loop, load_param_eq hp] at hs
    exact ⟨hs.2.symm, Or.inr (Or.inr ⟨Or.inl rfl, hs.1.symm⟩)⟩
  | PARAM_TYPE_UNKNOWN =>
    simp [parameter_type_dimensions, ht, paramSetValue_loop, load_param_eq hp] at hs
    exact ⟨hs.2.symm, Or.inr (Or.inr ⟨Or.inr rfl, hs.1.symm⟩)⟩

theorem storageInv_scalar_set {h : Heap} {p : Addr} {o o1 : OfxParamStruct}
    (hp : h.params[p]? = some ⟨o, 0⟩) (ht : o1.type ≠ ParamType.PARAM_TYPE_STRING)
    (hv : ∀ b : Nat, o1.value0 ≠ ParamValue.as_char (some b)) :
    StorageInv { h with params := h.params.set p ⟨o1, 0⟩ } p :=
  ⟨o1, by simp [List.getElem?_set_self (list_lt_of_getElem? hp)], Or.inr ⟨ht, hv⟩⟩

theorem storageInv_set_type {h h1 : Heap} {p : Addr} {t : ParamType} (hinv : StorageInv h p)
    (hs : parameter_set_type h p t = some h1) : StorageInv h1 p := by
  have hinv0 := hinv
  obtain ⟨o, hp, hstate⟩ := hinv
  have hlt : p < h.params.length := list_lt_of_getElem? hp
  rcases parameter_set_type_cases hp hs with ⟨_, he⟩ | ⟨hne, hns, he⟩ | ⟨hne, hstr, b, c, _, _, he⟩
  · subst he; exact hinv0
  · subst he
    have hnotext : ∀ b : Nat, o.value0 ≠ ParamValue.as_char (some b) := by
      rcases hstate with ⟨hstr, _⟩ | ⟨_, hv⟩
      · exact absurd hstr hns
      · exact hv
    by_cases hty : t = ParamType.PARAM_TYPE_STRING
    · simp only [hty, if_true]
      refine ⟨{ o with type := ParamType.PARAM_TYPE_STRING
                       value0 := ParamValue.as_char (some h.chars.length) },
        by simp [List.getElem?_set_self hlt], Or.inl ⟨rfl, h.chars.length, ⟨1, some "", 0⟩,
          rfl, ?_, rfl, by decide, rfl⟩⟩
      exact List.getElem?_concat_length _ _
    · simp only [hty, if_false]
      exact storageInv_scalar_set hp hty hnotext
  · subst he
    have hty : t ≠ ParamType.PARAM_TYPE_STRING := by
      intro e; exact hne (by rw [hstr, e])
    exact ⟨{ o with type := t, value0 := ParamValue.as_char none },
      by simp [List.getElem?_set_self hlt], Or.inr ⟨hty, by intro b hb; simp at hb⟩⟩

theorem storageInv_set_value {h h1 : Heap} {p : Addr} {args : List VaArg}
    {status : OfxStatus} (hinv : StorageInv h p)
    (hs : paramSetValue h p args = some (h1, status)) : StorageInv h1 p := by
  have hinv0 := hinv
  obtain ⟨o, hp, _⟩ := hinv
  rcases (paramSetValue_cases hp hs).2 with ⟨ht, d, _, _, he⟩ | ⟨ht, n, _, _, he⟩ | ⟨_, he⟩
  · subst he
    exact storageInv_scalar_set hp (by simp [ht]) (by intro b hb; simp at hb)
  · subst he
    exact storageInv_scalar_set hp (by simp [ht]) (by intro b hb; simp at hb)
  · subst he; exact hinv0

theorem storageInv_reachable {p : Addr} {h : Heap} (hr : ParamReachable p h) :
    StorageInv h p := by
  induction hr with
  | init h0 hp hs =>
    subst hp
    have hblk : (malloc_array_param h0).1.params[(malloc_array_param h0).2]? =
        some ⟨fresh_param, 0⟩ := by
      simp [malloc_array_param]
    rw [init_parameter_eq hblk] at hs
    simp only [Option.some.injEq] at hs
    subst hs
    exact storageInv_scalar_set hblk (by simp) (by intro b hb; simp [fresh_param] at hb)
  | set_type type _ hs ih => exact storageInv_set_type ih hs
  | set_value args status _ hs ih => exact storageInv_set_value ih hs

theorem ownsText_iff_of_storageInv {h : Heap} {p : Addr} {o : OfxParamStruct}
    (hinv : StorageInv h p) (hp : h.params[p]? = some ⟨o, 0⟩) :
    o.type = ParamType.PARAM_TYPE_STRING ↔ OwnsText h o := by
  obtain ⟨o1, hp1, hstate⟩ := hinv
  rw [hp] at hp1
  have he : o = o1 := by
    have := Option.some.inj hp1
    exact congrArg ParamBlock.obj this
  subst he
  rcases hstate with ⟨hstr, b, c, hv, hb, hf, hfit, ht⟩ | ⟨hns, hv⟩
  · refine ⟨fun _ => ?_, fun _ => hstr⟩
    simp only [OwnsText, source_text, hv]
    rw [load_string_eq hb hf hfit]
    exact ht
  · refine ⟨fun hstr => absurd hstr hns, fun hown => ?_⟩
    obtain ⟨st, hst⟩ := Option.isSome_iff_exists.1 hown
    obtain ⟨tb, hvt, _⟩ := source_text_eq_some hst
    exact absurd hvt (hv tb)

/-- C15. For every parameter object reachable from its allocation and
`init_parameter` by `parameter_set_type` and `paramSetValue` calls: the object
is live, and slot 0 holds a non-null pointer to a live block holding a string
exactly when the type is string.  `parameter_set_type` returns for every type
and leaves the object in the text-owning state exactly when the new type is
string; `paramSetValue`, when it returns, leaves the type and the state as
they were. -/
theorem storage_ownership (p : Addr) (h : Heap) (hr : ParamReachable p h) :
    ∃ o, load_param h p = some o ∧
      (o.type = ParamType.PARAM_TYPE_STRING ↔ OwnsText h o) ∧
      (∀ t, ∃ h1 o1, parameter_set_type h p t = some h1 ∧ load_param h1 p = some o1 ∧
        o1.type = t ∧ (OwnsText h1 o1 ↔ t = ParamType.PARAM_TYPE_STRING)) ∧
      (∀ args status h1, paramSetValue h p args = some (h1, status) →
        ∃ o1, load_param h1 p = some o1 ∧ o1.type = o.type ∧
          (OwnsText h1 o1 ↔ OwnsText h o)) := by
  have hinv := storageInv_reachable hr
  obtain ⟨o, hp, hstate⟩ := storageInv_reachable hr
  refine ⟨o, load_param_eq hp, ownsText_iff_of_storageInv hinv hp, ?_, ?_⟩
  · intro t
    have hret : ∃ h1, parameter_set_type h p t = some h1 := by
      rcases hstate with ⟨hstr, b, c, hv, hb, _, _⟩ | ⟨hns, _⟩
      · exact ⟨_, parameter_set_type_text t hp hstr hv hb⟩
      · exact ⟨_, parameter_set_type_scalar t hp hns⟩
    obtain ⟨h1, hs⟩ := hret
    obtain ⟨o1, ho1, hty⟩ := parameter_set_type_type hp hs
    have hinv1 := storageInv_set_type hinv hs
    refine ⟨h1, o1, hs, load_param_eq ho1, hty, ?_⟩
    rw [← ownsText_iff_of_storageInv hinv1 ho1, hty]
  · intro args status h1 hs
    have hinv1 := storageInv_set_value hinv hs
    obtain ⟨o1, ho1, _⟩ := hinv1
    have hty : o1.type = o.type := by
      have hlt : p < h.params.length := list_lt_of_getElem? hp
      rcases (paramSetValue_cases hp hs).2 with ⟨_, d, _, _, he⟩ | ⟨_, n, _, _, he⟩ | ⟨_, he⟩
      · subst he
        simp [List.getElem?_set_self hlt] at ho1
        rw [← ho1]
      · subst he
        simp [List.getElem?_set_self hlt] at ho1
        rw [← ho1]
      · subst he
        rw [hp] at ho1
        simp at ho1
        rw [← ho1]
    refine ⟨o1, load_param_eq ho1, hty, ?_⟩
    rw [← ownsText_iff_of_storageInv (storageInv_set_value hinv hs) ho1,
      ← ownsText_iff_of_storageInv hinv hp, hty]

/-- C15, at a reachable state: a new object, made a string and then an
integer, on the empty heap. -/
theorem storage_ownership_witness :
    ParamReachable 0 retyped_heap ∧
    ∃ o, load_param retyped_heap 0 = some o ∧ o.type = ParamType.PARAM_TYPE_INT ∧
      ¬ OwnsText retyped_heap o := by
  have h0 : ParamReachable 0 (Heap.mk [] [⟨init_obj, 0⟩] []) :=
    ParamReachable.init empty_heap rfl (by decide)
  have h1 : ParamReachable 0 (Heap.mk [⟨1, some "", 0⟩]
      [⟨{ init_obj with type := ParamType.PARAM_TYPE_STRING
                        value0 := ParamValue.as_char (some 0) }, 0⟩] []) :=
    ParamReachable.set_type ParamType.PARAM_TYPE_STRING h0 (by decide)
  have h2 : ParamReachable 0 retyped_heap :=
    ParamReachable.set_type ParamType.PARAM_TYPE_INT h1 (by decide)
  obtain ⟨o, ho, hiff, _⟩ := storage_ownership 0 retyped_heap h2
  have hload : load_param retyped_heap 0 =
      some { init_obj with type := ParamType.PARAM_TYPE_INT
                           value0 := ParamValue.as_char none } := rfl
  rw [hload] at ho
  have hoe := Option.some.inj ho
  subst hoe
  exact ⟨h2, _, hload, rfl, fun hown => absurd (hiff.2 hown) (by decide)⟩

/-! ## `ensure_parameter` and `paramDefine` on a new name -/

theorem find_parameter_init (h : Heap) (d : OfxParamSetStruct) (n : String) :
    find_parameter h (init_parameter_set d) n = some (-1) := by
  apply find_parameter_of_absent
  · intro i hi; simp [init_parameter_set] at hi
  · intro i hi; simp [init_parameter_set] at hi

/-- The closed form of the statements of `ensure_parameter` that precede its
`strcpy`: the entry is appended and points to a new name buffer of `strlen n`
bytes. -/
theorem ensure_parameter_alloc_eq {h : Heap} {ps : OfxParamSetStruct} (n : String)
    (hv : ValidSet h ps) :
    ensure_parameter_alloc h ps n =
      some (ensured_heap h ps n, ensured_set h ps, ps.num_parameters) := by
  have hnum : 0 ≤ ps.num_parameters := hv.1
  have hidx : ¬ (ps.num_parameters + 1 - 1 < 0) := by omega
  have htn : (ps.num_parameters + 1 - 1).toNat = ps.num_parameters.toNat := by
    congr 1; omega
  have hlast := appended_arrays_last h ps 1
  have hnew := appended_elems_new h ps 1 ps.num_parameters.toNat (Nat.le_refl _) (by omega)
  unfold ensure_parameter_alloc
  simp only [Option.bind_eq_bind, Option.some_bind,
    append_parameters_eq hv (by decide : (0 : Int) ≤ 1), hidx, if_false, htn, malloc_array_char]
  rw [load_elem_eq (E := appended_elems h ps 1) _ (by simpa using hlast), hnew]
  simp only [Nat.sub_self, Nat.add_zero, Option.some_bind]
  rw [modify_param_eq (o := init_obj) _ (by simp)]
  simp [ensured_heap, ensured_set]

theorem load_elem_ensured_new {h : Heap} {ps : OfxParamSetStruct} (n : String)
    (hv : ValidSet h ps) :
    load_elem (ensured_heap h ps n) (ensured_set h ps).parameters ps.num_parameters.toNat =
      some h.params.length := by
  have hnum := hv.1
  have := @load_elem_appended_new (ensured_heap h ps n) h ps 1 ps.num_parameters.toNat
    rfl (Nat.le_refl _) (by omega)
  simpa [ensured_set] using this

theorem ensured_new_block (h : Heap) (ps : OfxParamSetStruct) (n : String) :
    (ensured_heap h ps n).params[h.params.length]? =
      some ⟨{ init_obj with name := some h.chars.length }, 0⟩ := by
  simp [ensured_heap]

theorem ensured_name_block (h : Heap) (ps : OfxParamSetStruct) (n : String) :
    (ensured_heap h ps n).chars[h.chars.length]? = some ⟨strlen n, none, 0⟩ := by
  simp [ensured_heap]

/-- The `strcpy` of `ensure_parameter` writes `strlen n + 1` bytes into the
name buffer of `strlen n` bytes. -/
theorem ensure_parameter_strcpy_none {h : Heap} {ps : OfxParamSetStruct} (n : String)
    (hv : ValidSet h ps) :
    ensure_parameter_strcpy (ensured_heap h ps n) (ensured_set h ps) ps.num_parameters n =
      none := by
  unfold ensure_parameter_strcpy
  rw [load_elem_ensured_new n hv]
  simp only [Option.bind_eq_bind, Option.some_bind]
  rw [name_ptr_eq (ensured_new_block h ps n)]
  simp only [Option.some_bind]
  exact store_string_short n (ensured_name_block h ps n) (Nat.lt_succ_self _)

theorem ensure_parameter_absent {h : Heap} {ps : OfxParamSetStruct} {n : String}
    (hv : ValidSet h ps) (hfind : find_parameter h ps n = some (-1)) :
    ensure_parameter h ps n = none := by
  unfold ensure_parameter
  simp only [hfind, Option.bind_eq_bind, Option.some_bind, if_true,
    ensure_parameter_alloc_eq n hv, ensure_parameter_strcpy_none n hv, Option.none_bind]

theorem paramDefine_absent {h : Heap} {ps : OfxParamSetStruct} {n : String}
    (k : ParamTypeNames) (paramType : String)
    (propertySet : OutPtr (Option OfxPropertySetHandle))
    (hv : ValidSet h ps) (hfind : find_parameter h ps n = some (-1)) :
    paramDefine k h ps paramType n propertySet = none := by
  unfold paramDefine
  simp [hfind, ensure_parameter_absent hv hfind]

/-- C1. On a well-formed registry whose entries all have names: when `n` is
present, first at index `k`, `ensure_parameter` returns `k` and leaves heap and
registry as they were, and so does a second call.  When `n` is absent, the
first call appends the entry (the count grows by one) and gives it a name
buffer of `strlen n` bytes; its `strcpy` then writes `strlen n + 1` bytes, which
is undefined, so neither the first call nor the pair of calls has a result. -/
theorem ensure_parameter_twice (h : Heap) (ps : OfxParamSetStruct) (n : String)
    (hv : ValidSet h ps) (hn : AllNamed h ps) :
    (∀ k, FirstAt h ps n k →
      ensure_parameter h ps n = some (h, ps, (k : Int)) ∧
      (ensure_parameter h ps n).bind (fun r => ensure_parameter r.1 r.2.1 n) =
        some (h, ps, (k : Int))) ∧
    (Absent h ps n →
      (∃ h1 ps1 i, ensure_parameter_alloc h ps n = some (h1, ps1, i) ∧
        ps1.num_parameters = ps.num_parameters + 1 ∧ i = ps.num_parameters ∧
        ensure_parameter_strcpy h1 ps1 i n = none) ∧
      ensure_parameter h ps n = none ∧
      (ensure_parameter h ps n).bind (fun r => ensure_parameter r.1 r.2.1 n) = none) := by
  constructor
  · intro k hk
    have hpres := ensure_parameter_present (find_parameter_of_firstAt hk)
    refine ⟨hpres, ?_⟩
    rw [hpres]
    exact hpres
  · intro ha
    have hnone := ensure_parameter_absent hv (find_parameter_of_absent hn ha)
    refine ⟨⟨_, _, _, ensure_parameter_alloc_eq n hv, rfl, rfl,
      ensure_parameter_strcpy_none n hv⟩, hnone, ?_⟩
    rw [hnone]
    rfl

/-- C1, at the sample registry: the present name `b` and the new name `c`. -/
theorem ensure_parameter_twice_witness :
    ValidSet demo_heap demo_set ∧ AllNamed demo_heap demo_set ∧
    FirstAt demo_heap demo_set "b" 1 ∧
    ensure_parameter demo_heap demo_set "b" = some (demo_heap, demo_set, 1) ∧
    Absent demo_heap demo_set "c" ∧
    ensure_parameter demo_heap demo_set "c" = none :=
  ⟨by decide, by decide, by decide,
    ((ensure_parameter_twice demo_heap demo_set "b" (by decide) (by decide)).1 1
      (by decide)).1,
    by decide,
    ((ensure_parameter_twice demo_heap demo_set "c" (by decide) (by decide)).2
      (by decide)).2.1⟩

/-- C2. When `n` is present and the entries before the first entry named `n`
all have names, `paramDefine` with `n` and any type string returns
`kOfxStatErrExists` and leaves heap, registry and output variable as they
were.  On a well-formed registry whose entries all have names and where `n` is
absent, the define of `n` as integer reaches the `strcpy` of `ensure_parameter`
into the name buffer of `strlen n` bytes, which is undefined: the first define
has no result, and so the sequence of the two defines has none. -/
theorem paramDefine_existing (k : ParamTypeNames) :
    (∀ (h : Heap) (ps : OfxParamSetStruct) (paramType n : String)
      (out : OutPtr (Option OfxPropertySetHandle)),
      (∃ j, FirstAt h ps n j) →
      paramDefine k h ps paramType n out =
        some { heap := h, paramSet := ps, status := OfxStatus.kOfxStatErrExists,
               propertySet := out }) ∧
    (∀ (h : Heap) (ps : OfxParamSetStruct) (n : String)
      (out out2 : OutPtr (Option OfxPropertySetHandle)),
      ValidSet h ps → AllNamed h ps → Absent h ps n →
      paramDefine k h ps k.kOfxParamTypeInteger n out = none ∧
      define_all k h ps
        [⟨k.kOfxParamTypeInteger, n, out⟩, ⟨k.kOfxParamTypeDouble, n, out2⟩] = none) := by
  constructor
  · rintro h ps paramType n out ⟨j, hj⟩
    exact paramDefine_present k paramType out (find_parameter_of_firstAt hj)
  · intro h ps n out out2 hv hn ha
    have hdef := paramDefine_absent k k.kOfxParamTypeInteger out hv
      (find_parameter_of_absent hn ha)
    refine ⟨hdef, ?_⟩
    simp only [define_all, hdef]

/-- C2, at the sample registry: `b` is present, and `w` is absent. -/
theorem paramDefine_existing_witness :
    (∃ j, FirstAt demo_heap demo_set "b" j) ∧
    paramDefine ofxParamTypeNames demo_heap demo_set "OfxParamTypeDouble" "b" (some none) =
      some { heap := demo_heap, paramSet := demo_set, status := OfxStatus.kOfxStatErrExists,
             propertySet := some none } ∧
    ValidSet demo_heap demo_set ∧ AllNamed demo_heap demo_set ∧
    Absent demo_heap demo_set "w" ∧
    define_all ofxParamTypeNames demo_heap demo_set
      [⟨"OfxParamTypeInteger", "w", none⟩, ⟨"OfxParamTypeDouble", "w", none⟩] = none :=
  ⟨⟨1, by decide⟩,
    (paramDefine_existing ofxParamTypeNames).1 demo_heap demo_set "OfxParamTypeDouble" "b"
      (some none) ⟨1, by decide⟩,
    by decide, by decide, by decide,
    ((paramDefine_existing ofxParamTypeNames).2 demo_heap demo_set "w" none none
      (by decide) (by decide) (by decide)).2⟩

/-- C4. On a well-formed registry whose entries all have names, `paramDefine`
with an absent name `n` and any type string has no result: `ensure_parameter`
appends the entry (the count grows by one, the new entry is the last) and gives
it a name buffer of `strlen n` bytes, and its `strcpy` of `n` is undefined, so
no status is returned, no type is set and no handle is written.
`parse_parameter_type` gives double, integer and string for the three type
names (pairwise different) and unknown for every other string. -/
theorem paramDefine_new_undefined (k : ParamTypeNames) (h : Heap) (ps : OfxParamSetStruct)
    (s n : String) (out : OutPtr (Option OfxPropertySetHandle))
    (hv : ValidSet h ps) (hn : AllNamed h ps) (ha : Absent h ps n) :
    (∃ h1 ps1 i p o b c, ensure_parameter_alloc h ps n = some (h1, ps1, i) ∧
      ps1.num_parameters = ps.num_parameters + 1 ∧ i = ps.num_parameters ∧
      load_elem h1 ps1.parameters i.toNat = some p ∧ h.params.length ≤ p ∧
      load_param h1 p = some o ∧ o.name = some b ∧ h1.chars[b]? = some c ∧
      c.cap = strlen n ∧
      ensure_parameter_strcpy h1 ps1 i n = none) ∧
    ensure_parameter h ps n = none ∧
    paramDefine k h ps s n out = none ∧
    (k.Distinct →
      parse_parameter_type k k.kOfxParamTypeDouble = ParamType.PARAM_TYPE_DOUBLE ∧
      parse_parameter_type k k.kOfxParamTypeInteger = ParamType.PARAM_TYPE_INT ∧
      parse_parameter_type k k.kOfxParamTypeString = ParamType.PARAM_TYPE_STRING ∧
      ∀ t, t ≠ k.kOfxParamTypeDouble → t ≠ k.kOfxParamTypeInteger →
        t ≠ k.kOfxParamTypeString →
        parse_parameter_type k t = ParamType.PARAM_TYPE_UNKNOWN) := by
  have hfind := find_parameter_of_absent hn ha
  refine ⟨⟨_, _, _, h.params.length, _, h.chars.length, _, ensure_parameter_alloc_eq n hv,
    rfl, rfl, load_elem_ensured_new n hv, Nat.le_refl _,
    load_param_eq (ensured_new_block h ps n), rfl, ensured_name_block h ps n, rfl,
    ensure_parameter_strcpy_none n hv⟩,
    ensure_parameter_absent hv hfind, paramDefine_absent k s out hv hfind, ?_⟩
  rintro ⟨h1, h2, h3⟩
  refine ⟨?_, ?_, ?_, ?_⟩
  · simp [parse_parameter_type, strcmp_eq_zero_iff]
  · simp [parse_parameter_type, strcmp_eq_zero_iff, Ne.symm h1]
  · simp [parse_parameter_type, strcmp_eq_zero_iff, Ne.symm h2, Ne.symm h3]
  · intro t t1 t2 t3
    simp [parse_parameter_type, strcmp_eq_zero_iff, t1, t2, t3]

/-- C4, at the sample registry: `w` is declared as a string parameter. -/
theorem paramDefine_new_undefined_witness :
    ValidSet demo_heap demo_set ∧ AllNamed demo_heap demo_set ∧
    Absent demo_heap demo_set "w" ∧
    paramDefine ofxParamTypeNames demo_heap demo_set "OfxParamTypeString" "w" (some none) =
      none :=
  ⟨by decide, by decide, by decide,
    (paramDefine_new_undefined ofxParamTypeNames demo_heap demo_set "OfxParamTypeString" "w"
      (some none) (by decide) (by decide) (by decide)).2.2.1⟩

/-- C12. On a freshly initialised registry the first `paramDefine` of a
sequence has no result, whatever its name and type string: the name is new,
and the `strcpy` of `ensure_parameter` into the name buffer of `strlen` bytes
is undefined.  So no sequence of one or more defines has a result; the empty
sequence leaves the registry with no entry. -/
theorem define_all_undefined (k : ParamTypeNames) (h0 : Heap) (d : OfxParamSetStruct) :
    (∀ (c : DefineCall) (rest : List DefineCall),
      paramDefine k h0 (init_parameter_set d) c.paramType c.name c.propertySet = none ∧
      define_all k h0 (init_parameter_set d) (c :: rest) = none) ∧
    define_all k h0 (init_parameter_set d) [] = some (h0, init_parameter_set d, []) := by
  refine ⟨?_, rfl⟩
  intro c rest
  have hdef := paramDefine_absent k c.paramType c.propertySet (valid_init h0 d)
    (find_parameter_init h0 d c.name)
  refine ⟨hdef, ?_⟩
  simp only [define_all, hdef]

theorem load_string_append {h : Heap} {a : Addr} {s : String} (X : List CharArray)
    (P : List ParamBlock) (A : List PtrArray) (hs : load_string h a = some s) :
    load_string { chars := h.chars ++ X, params := P, arrays := A } a = some s := by
  obtain ⟨c, hc, hf, ht, hfit⟩ := load_string_inv hs
  have hlt : a < h.chars.length := list_lt_of_getElem? hc
  rw [load_string_eq (c := c) (by simp [List.getElem?_append_left hlt, hc]) hf hfit, ht]

/-- The closed form of the `malloc_array` statement of the name part: the new
buffer has `strlen` bytes. -/
theorem deep_copy_parameter_name_alloc_eq {g : Heap} {destination source : Addr}
    {s d : OfxParamStruct} {nb : Addr} {sn : String}
    (hs : g.params[source]? = some ⟨s, 0⟩) (hd : g.params[destination]? = some ⟨d, 0⟩)
    (hname : s.name = some nb) (hstr : load_string g nb = some sn) :
    deep_copy_parameter_name_alloc g destination source =
      some { chars := g.chars ++ [⟨strlen sn, none, 0⟩]
             params := g.params.set destination ⟨{ d with name := some g.chars.length }, 0⟩
             arrays := g.arrays } := by
  unfold deep_copy_parameter_name_alloc
  simp only [name_ptr_eq hs, hname, Option.bind_eq_bind, Option.some_bind, hstr,
    malloc_array_char]
  rw [modify_param_eq (o := d) _ (by simpa using hd)]

/-- The `strcpy` of the name part writes `strlen + 1` bytes into a block that
is shorter. -/
theorem deep_copy_parameter_name_strcpy_none {g : Heap} {destination source : Addr}
    {s d : OfxParamStruct} {nb b : Addr} {sn : String} {c : CharArray}
    (hs : g.params[source]? = some ⟨s, 0⟩) (hd : g.params[destination]? = some ⟨d, 0⟩)
    (hname : s.name = some nb) (hstr : load_string g nb = some sn)
    (hdname : d.name = some b) (hb : g.chars[b]? = some c) (hcap : c.cap < sn.length + 1) :
    deep_copy_parameter_name_strcpy g destination source = none := by
  unfold deep_copy_parameter_name_strcpy
  simp only [name_ptr_eq hd, hdname, name_ptr_eq hs, hname, Option.bind_eq_bind,
    Option.some_bind, hstr]
  exact store_string_short sn hb hcap

/-- The heap in which the name part of `deep_copy_parameter` reaches its
`strcpy`. -/
theorem deep_copy_parameter_name_steps {g : Heap} {destination source : Addr}
    {s d : OfxParamStruct} {nb : Addr} {sn : String}
    (hs : g.params[source]? = some ⟨s, 0⟩) (hd : g.params[destination]? = some ⟨d, 0⟩)
    (hne : destination ≠ source) (hname : s.name = some nb)
    (hstr : load_string g nb = some sn) :
    ∃ g1 gb, modify_param g destination (fun o => { o with name := s.name }) = some g1 ∧
      deep_copy_parameter_name_alloc g1 destination source = some gb ∧
      name_ptr gb destination = some g.chars.length ∧
      gb.chars[g.chars.length]? = some ⟨strlen sn, none, 0⟩ ∧
      deep_copy_parameter_name_strcpy gb destination source = none := by
  have hlt : destination < g.params.length := list_lt_of_getElem? hd
  have hs1 : (g.params.set destination ⟨{ d with name := s.name }, 0⟩)[source]? =
      some ⟨s, 0⟩ := by
    rw [List.getElem?_set_ne hne, hs]
  have hd1 : (g.params.set destination ⟨{ d with name := s.name }, 0⟩)[destination]? =
      some ⟨{ d with name := s.name }, 0⟩ := List.getElem?_set_self hlt
  have halloc := @deep_copy_parameter_name_alloc_eq
    { g with params := g.params.set destination ⟨{ d with name := s.name }, 0⟩ }
    destination source s { d with name := s.name } nb sn hs1 hd1 hname hstr
  simp only [List.set_set] at halloc
  refine ⟨_, _, modify_param_eq _ hd, halloc, ?_, ?_, ?_⟩
  · rw [name_ptr_eq (o := { d with name := some g.chars.length })
      (by simp [List.getElem?_set_self hlt])]
  · simp
  · exact @deep_copy_parameter_name_strcpy_none _ destination source s
      { d with name := some g.chars.length } nb g.chars.length sn ⟨strlen sn, none, 0⟩
      (by simp [List.getElem?_set_ne hne, hs]) (by simp [List.getElem?_set_self hlt])
      hname (load_string_append _ _ _ hstr) rfl (by simp) (Nat.lt_succ_self _)

theorem deep_copy_parameter_name_named {g : Heap} {destination source : Addr}
    {s d : OfxParamStruct} {nb : Addr} {sn : String}
    (hs : g.params[source]? = some ⟨s, 0⟩) (hd : g.params[destination]? = some ⟨d, 0⟩)
    (hne : destination ≠ source) (hname : s.name = some nb)
    (hstr : load_string g nb = some sn) :
    deep_copy_parameter_name g destination source = none := by
  have hlt : destination < g.params.length := list_lt_of_getElem? hd
  obtain ⟨g1, gb, h1, h2, _, _, h3⟩ := deep_copy_parameter_name_steps hs hd hne hname hstr
  have hg1 : g1 = { g with
      params := (g.params.set destination ⟨{ d with name := s.name }, 0⟩) } := by
    rw [modify_param_eq _ hd] at h1
    exact (Option.some.inj h1).symm
  have hload : load_param g1 destination = some { d with name := s.name } := by
    rw [hg1]
    exact load_param_eq (List.getElem?_set_self hlt)
  unfold deep_copy_parameter_name
  simp only [load_param_eq hs, Option.bind_eq_bind, Option.some_bind, h1, hload]
  simp only [hname, h2, Option.some_bind, h3]

theorem deep_copy_parameter_named {g : Heap} {destination source : Addr}
    {s d : OfxParamStruct} {nb : Addr} {sn : String}
    (hs : g.params[source]? = some ⟨s, 0⟩) (hd : g.params[destination]? = some ⟨d, 0⟩)
    (hne : destination ≠ source) (hname : s.name = some nb)
    (hstr : load_string g nb = some sn) :
    deep_copy_parameter g destination source = none := by
  unfold deep_copy_parameter
  rw [deep_copy_parameter_name_named hs hd hne hname hstr]
  rfl

/-! ## `deep_copy_parameter_set` -/

theorem appended_arrays_init (h : Heap) (d : OfxParamSetStruct) (count : Int) :
    appended_arrays h (init_parameter_set d) count =
      h.arrays ++ [⟨appended_elems h (init_parameter_set d) count, 0⟩] := by
  simp [appended_arrays, init_parameter_set]

theorem load_elem_append_old {h : Heap} {arr : Option Addr} {i : Nat} {p : Addr}
    (C : List CharArray) (P : List ParamBlock) (X : List PtrArray)
    (hp : load_elem h arr i = some p) :
    load_elem { chars := C, params := P, arrays := h.arrays ++ X } arr i = some p := by
  cases arr with
  | none => simp [load_elem] at hp
  | some a =>
    cases hb : h.arrays[a]? with
    | none => simp [load_elem, hb] at hp
    | some b =>
      have hlt : a < h.arrays.length := list_lt_of_getElem? hb
      simp only [load_elem, hb] at hp
      simp only [load_elem, List.getElem?_append_left hlt, hb]
      exact hp

/-- A source registry whose first entry has a name cannot be copied: the first
`deep_copy_parameter` of the loop runs into the `strcpy` of the name. -/
theorem deep_copy_parameter_set_named {h : Heap} {sets : List OfxParamSetStruct}
    {destination source : Addr} {d src : OfxParamSetStruct} {p nb : Addr}
    {o : OfxParamStruct} {sn : String}
    (hd : sets[destination]? = some d) (hsrc : sets[source]? = some src)
    (hne : destination ≠ source) (hnum : 0 < src.num_parameters)
    (hp : load_elem h src.parameters 0 = some p) (ho : load_param h p = some o)
    (hname : o.name = some nb) (hstr : load_string h nb = some sn) :
    deep_copy_parameter_set h sets destination source = none := by
  have hdl : destination < sets.length := list_lt_of_getElem? hd
  have hpl : p < h.params.length := list_lt_of_getElem? (load_param_inv ho)
  have hc : 0 ≤ src.num_parameters := by omega
  have happ := @append_parameters_eq h (init_parameter_set d) src.num_parameters
    (valid_init h d) hc
  obtain ⟨m, hm⟩ : ∃ m, ((init_parameter_set d).num_parameters + src.num_parameters).toNat =
      m + 1 :=
    ⟨src.num_parameters.toNat - 1, by
      show ((0 : Int) + src.num_parameters).toNat = src.num_parameters.toNat - 1 + 1
      omega⟩
  have hdst : load_elem
      { chars := h.chars
        params := h.params ++ List.replicate src.num_parameters.toNat ⟨init_obj, 0⟩
        arrays := appended_arrays h (init_parameter_set d) src.num_parameters }
      (some h.arrays.length) 0 = some (h.params.length + (0 - 0)) :=
    @load_elem_appended_new _ h (init_parameter_set d) src.num_parameters 0 rfl
      (by simp [init_parameter_set]) (by rw [hm]; omega)
  have hsrc0 : load_elem
      { chars := h.chars
        params := h.params ++ List.replicate src.num_parameters.toNat ⟨init_obj, 0⟩
        arrays := appended_arrays h (init_parameter_set d) src.num_parameters }
      src.parameters 0 = some p := by
    rw [appended_arrays_init]
    exact load_elem_append_old _ _ _ hp
  have hrep : ∃ r, src.num_parameters.toNat = r + 1 :=
    ⟨src.num_parameters.toNat - 1, by omega⟩
  obtain ⟨r, hr⟩ := hrep
  have hdblk : (h.params ++ List.replicate src.num_parameters.toNat
      (⟨init_obj, 0⟩ : ParamBlock))[h.params.length]? = some ⟨init_obj, 0⟩ := by
    rw [hr, List.replicate_succ]
    exact list_getElem?_append_cons _ _ _
  have hcopy : deep_copy_parameter
      { chars := h.chars
        params := h.params ++ List.replicate src.num_parameters.toNat ⟨init_obj, 0⟩
        arrays := appended_arrays h (init_parameter_set d) src.num_parameters }
      (h.params.length + (0 - 0)) p = none :=
    @deep_copy_parameter_named _ (h.params.length + (0 - 0)) p o init_obj nb sn
      (by simp [List.getElem?_append_left hpl, load_param_inv ho])
      hdblk (Nat.ne_of_gt hpl) hname hstr
  unfold deep_copy_parameter_set
  simp only [hd, Option.bind_eq_bind, Option.some_bind, List.getElem?_set_self hdl,
    List.getElem?_set_ne hne, hsrc, happ, List.length_set, hm, deep_copy_parameter_set_loop,
    hdst, hsrc0, hcopy, Option.none_bind]

/-- A source registry without entries, and the destination itself as source:
`deep_copy_parameter_set` leaves a destination without entries that points to
a new empty array.  When the two pointers designate the same registry, that
registry is the one emptied, and its effect bag reference is null. -/
theorem deep_copy_parameter_set_empty {h : Heap} {sets : List OfxParamSetStruct}
    {destination source : Addr} {d src : OfxParamSetStruct}
    (hd : sets[destination]? = some d) (hsrc : sets[source]? = some src)
    (hcase : source = destination ∨ src.num_parameters = 0) :
    deep_copy_parameter_set h sets destination source =
      some ({ h with arrays := h.arrays ++ [⟨[], 0⟩] },
        sets.set destination
          { num_parameters := 0
            parameters := some h.arrays.length
            effect_properties :=
              if source = destination then none else src.effect_properties }) := by
  have hdl : destination < sets.length := list_lt_of_getElem? hd
  have happ := @append_parameters_eq h (init_parameter_set d) 0 (valid_init h d)
    (Int.le_refl 0)
  have harr : appended_arrays h (init_parameter_set d) 0 = h.arrays ++ [⟨[], 0⟩] := by
    rw [appended_arrays_init]
    simp [appended_elems, init_parameter_set]
  have harr0 : appended_arrays h
      { num_parameters := 0, parameters := none, effect_properties := none } 0 =
      h.arrays ++ [⟨[], 0⟩] := harr
  by_cases he : source = destination
  · subst he
    unfold deep_copy_parameter_set
    simp only [hd, Option.bind_eq_bind, Option.some_bind, List.getElem?_set_self hdl,
      List.length_set]
    rw [show (init_parameter_set d).num_parameters = 0 from rfl, happ]
    simp [deep_copy_parameter_set_loop, harr0, init_parameter_set, hdl]
  · have hz : src.num_parameters = 0 := by
      rcases hcase with h1 | h1
      · exact absurd h1 he
      · exact h1
    unfold deep_copy_parameter_set
    simp only [hd, Option.bind_eq_bind, Option.some_bind, List.getElem?_set_self hdl,
      List.length_set, List.getElem?_set_ne (Ne.symm he), hsrc, hz, happ]
    simp [deep_copy_parameter_set_loop, harr0, init_parameter_set, he]

/-! ## The deep copy of a registry with names -/

/-- C10. Let entry 0 of the source registry be a live parameter object of
type string that has a name and whose text is `s`.  `deep_copy_parameter_set`
to another registry has no result: the first `deep_copy_parameter` allocates
`strlen` bytes for the copy of the name and its `strcpy` writes one byte more,
which is undefined, so there is no copy to change afterwards.  The same holds
for `deep_copy_parameter` on every other live destination object.  Taken
alone, the text part of `deep_copy_parameter` is independent of the source: the
destination gets the text `s` in a new buffer, different from the buffer of
the source, and the source object, its name and its text are as before. -/
theorem deep_copy_text_undefined (h : Heap) (sets : List OfxParamSetStruct)
    (destination source : Addr) (d src : OfxParamSetStruct) (p nb tb : Nat)
    (o : OfxParamStruct) (sn s : String)
    (hd : sets[destination]? = some d) (hsrc : sets[source]? = some src)
    (hne : destination ≠ source) (hnum : 0 < src.num_parameters)
    (hp : load_elem h src.parameters 0 = some p) (ho : load_param h p = some o)
    (_ht : o.type = ParamType.PARAM_TYPE_STRING)
    (hname : o.name = some nb) (hstr : load_string h nb = some sn)
    (hval : o.value0 = ParamValue.as_char (some tb)) (htext : load_string h tb = some s) :
    deep_copy_parameter_set h sets destination source = none ∧
    ∀ (q : Nat) (dq : OfxParamStruct), load_param h q = some dq → q ≠ p →
      deep_copy_parameter_name h q p = none ∧ deep_copy_parameter h q p = none ∧
      (dq.type = ParamType.PARAM_TYPE_STRING →
        ∃ h1, deep_copy_parameter_text h q p = some h1 ∧
          text_ptr h1 q = some h.chars.length ∧ h.chars.length ≠ tb ∧
          load_string h1 h.chars.length = some s ∧
          load_string h1 tb = some s ∧ load_param h1 p = some o ∧
          load_string h1 nb = some sn) := by
  refine ⟨deep_copy_parameter_set_named hd hsrc hne hnum hp ho hname hstr, ?_⟩
  intro q dq hq hqp
  have hsb := load_param_inv ho
  have hqb := load_param_inv hq
  have hlt : q < h.params.length := list_lt_of_getElem? hqb
  refine ⟨deep_copy_parameter_name_named hsb hqb hqp hname hstr,
    deep_copy_parameter_named hsb hqb hqp hname hstr, ?_⟩
  intro hty
  have hst : source_text h o = some s := by
    simp only [source_text, hval]
    exact htext
  have htxt := deep_copy_parameter_text_eq hsb hqb hqp (fun _ => by rw [hst]; rfl)
  simp only [hty, if_true, hst] at htxt
  obtain ⟨ct, hct, _, _, _⟩ := load_string_inv htext
  have htb : tb < h.chars.length := list_lt_of_getElem? hct
  refine ⟨_, htxt, ?_, Nat.ne_of_gt htb, ?_, load_string_append _ _ _ htext, ?_,
    load_string_append _ _ _ hstr⟩
  · exact text_ptr_eq (o := { dq with value0 := ParamValue.as_char (some h.chars.length) })
      (by simp [List.getElem?_set_self hlt, hty]) rfl
  · rw [load_string_eq (c := ⟨strlen s + 1, some s, 0⟩) (by simp) rfl
      (by show s.length + 1 ≤ strlen s + 1; exact Nat.le_refl _)]
  · exact load_param_eq (by simp [List.getElem?_set_ne hqp, hsb])

/-- C10, at the sample registry with one string parameter named `t` whose text
is `hello`. -/
theorem deep_copy_text_undefined_witness :
    load_elem text_heap text_set.parameters 0 = some 0 ∧
    load_string text_heap 0 = some "t" ∧ load_string text_heap 1 = some "hello" ∧
    deep_copy_parameter_set text_heap [demo_set, text_set] 0 1 = none ∧
    deep_copy_parameter text_pair_heap 1 0 = none :=
  ⟨by decide, by decide, by decide,
    (deep_copy_text_undefined text_heap [demo_set, text_set] 0 1 demo_set text_set 0 0 1
      { init_obj with type := ParamType.PARAM_TYPE_STRING
                      name := some 0
                      value0 := ParamValue.as_char (some 1) }
      "t" "hello" rfl rfl (by decide) (by decide) (by decide) (by decide) rfl rfl
      (by decide) rfl (by decide)).1,
    by decide⟩

/-- C11. With the registries at `destination` and `source` in place:
when the two are different registries and the first entry of the source is a
live object with a name, `deep_copy_parameter_set` has no result, because the
`strcpy` of the name into the buffer of `strlen` bytes is undefined.  When the
source has no entry, the destination becomes a registry without entries that
points to a new empty array and has the effect bag reference of the source.
When both pointers designate the same registry, that registry is emptied. -/
theorem deep_copy_parameter_set_undefined (h : Heap) (sets : List OfxParamSetStruct)
    (destination source : Addr) (d src : OfxParamSetStruct)
    (hd : sets[destination]? = some d) (hsrc : sets[source]? = some src) :
    (destination ≠ source → 0 < src.num_parameters →
      ∀ (p nb : Nat) (o : OfxParamStruct) (sn : String),
        load_elem h src.parameters 0 = some p → load_param h p = some o →
        o.name = some nb → load_string h nb = some sn →
        deep_copy_parameter_set h sets destination source = none) ∧
    (destination ≠ source → src.num_parameters = 0 →
      deep_copy_parameter_set h sets destination source =
        some ({ h with arrays := h.arrays ++ [⟨[], 0⟩] },
          sets.set destination
            { num_parameters := 0
              parameters := some h.arrays.length
              effect_properties := src.effect_properties })) ∧
    (destination = source →
      deep_copy_parameter_set h sets destination source =
        some ({ h with arrays := h.arrays ++ [⟨[], 0⟩] },
          sets.set destination
            { num_parameters := 0
              parameters := some h.arrays.length
              effect_properties := none })) := by
  refine ⟨?_, ?_, ?_⟩
  · intro hne hnum p nb o sn hp ho hname hstr
    exact deep_copy_parameter_set_named hd hsrc hne hnum hp ho hname hstr
  · intro hne hz
    have := @deep_copy_parameter_set_empty h sets destination source d src hd hsrc (Or.inr hz)
    rw [if_neg (Ne.symm hne)] at this
    exact this
  · intro he
    have := @deep_copy_parameter_set_empty h sets destination source d src hd hsrc
      (Or.inl he.symm)
    rw [if_pos he.symm] at this
    exact this

/-- C11, at the sample registry with one string parameter named `t` whose text
is `hello`: the copy to another registry has no result, and the copy of the
registry to itself leaves it without entries. -/
theorem deep_copy_parameter_set_undefined_witness :
    deep_copy_parameter_set text_heap [demo_set, text_set] 0 1 = none ∧
    deep_copy_parameter_set text_heap [demo_set, text_set] 1 1 =
      some ({ text_heap with arrays := text_heap.arrays ++ [⟨[], 0⟩] },
        [demo_set, { num_parameters := 0, parameters := some 1, effect_properties := none }]) :=
  ⟨(deep_copy_parameter_set_undefined text_heap [demo_set, text_set] 0 1 demo_set text_set
      rfl rfl).1 (by decide) (by decide) 0 0
      { init_obj with type := ParamType.PARAM_TYPE_STRING
                      name := some 0
                      value0 := ParamValue.as_char (some 1) }
      "t" (by decide) (by decide) rfl (by decide),
    (deep_copy_parameter_set_undefined text_heap [demo_set, text_set] 1 1 text_set text_set
      rfl rfl).2.2 rfl⟩

/-! ## Names of the entries -/

/-- C20. The name buffers are one byte short.  For every name `n`,
`ensure_parameter` on a freshly initialised registry gives the new entry a name
buffer of `strlen n` bytes, where `n` and its terminating zero do not fit; the
`strcpy` of `n` into it is a write past the end of the block, and
`ensure_parameter` has no result.  `deep_copy_parameter` does the same with the
name of every source object that has one: the buffer for the copy has `strlen`
bytes, the `strcpy` is a write past its end, and `deep_copy_parameter` has no
result.  The text part of `deep_copy_parameter` allocates `strlen + 1` bytes,
where the text and its terminator fit, and its `strcpy` returns. -/
theorem name_buffers_one_byte_short :
    (∀ (h0 : Heap) (d : OfxParamSetStruct) (n : String),
      ∃ h1 ps1 i p o b c,
        ensure_parameter_alloc h0 (init_parameter_set d) n = some (h1, ps1, i) ∧
        load_elem h1 ps1.parameters i.toNat = some p ∧ load_param h1 p = some o ∧
        o.name = some b ∧ h1.chars[b]? = some c ∧ c.frees = 0 ∧
        c.cap = strlen n ∧ ¬ (CharArray.mk c.cap (some n) 0).Fits ∧
        ensure_parameter_strcpy h1 ps1 i n = none ∧
        ensure_parameter h0 (init_parameter_set d) n = none) ∧
    (∀ (h : Heap) (destination source : Nat) (s d : OfxParamStruct) (nb : Nat) (sn : String),
      load_param h source = some s → load_param h destination = some d →
      destination ≠ source → s.name = some nb → load_string h nb = some sn →
      ∃ h1 hb b c,
        modify_param h destination (fun o => { o with name := s.name }) = some h1 ∧
        deep_copy_parameter_name_alloc h1 destination source = some hb ∧
        name_ptr hb destination = some b ∧ hb.chars[b]? = some c ∧ c.frees = 0 ∧
        c.cap = strlen sn ∧ ¬ (CharArray.mk c.cap (some sn) 0).Fits ∧
        deep_copy_parameter_name_strcpy hb destination source = none ∧
        deep_copy_parameter h destination source = none) ∧
    (∀ (h : Heap) (destination source : Nat) (s d : OfxParamStruct) (tb : Nat) (st : String),
      load_param h source = some s → load_param h destination = some d →
      destination ≠ source → d.type = ParamType.PARAM_TYPE_STRING →
      s.value0 = ParamValue.as_char (some tb) → load_string h tb = some st →
      ∃ h1 b c,
        deep_copy_parameter_text h destination source = some h1 ∧
        text_ptr h1 destination = some b ∧ h1.chars[b]? = some c ∧ c.frees = 0 ∧
        c.cap = strlen st + 1 ∧ c.text = some st ∧ c.Fits ∧
        load_string h1 b = some st) := by
  refine ⟨?_, ?_, ?_⟩
  · intro h0 d n
    have hv := valid_init h0 d
    refine ⟨_, _, _, h0.params.length, _, h0.chars.length, ⟨strlen n, none, 0⟩,
      ensure_parameter_alloc_eq n hv, load_elem_ensured_new n hv,
      load_param_eq (ensured_new_block h0 _ n), rfl, ensured_name_block h0 _ n, rfl, rfl, ?_,
      ensure_parameter_strcpy_none n hv,
      ensure_parameter_absent hv (find_parameter_init h0 d n)⟩
    simp [CharArray.Fits, strlen]
  · intro h destination source s d nb sn hs hd hne hname hstr
    have hsb := load_param_inv hs
    have hdb := load_param_inv hd
    obtain ⟨g1, gb, e1, e2, e3, e4, e5⟩ := deep_copy_parameter_name_steps hsb hdb hne hname hstr
    refine ⟨g1, gb, h.chars.length, ⟨strlen sn, none, 0⟩, e1, e2, e3, e4, rfl, rfl, ?_, e5,
      deep_copy_parameter_named hsb hdb hne hname hstr⟩
    simp [CharArray.Fits, strlen]
  · intro h destination source s d tb st hs hd hne hty hval htext
    have hsb := load_param_inv hs
    have hdb := load_param_inv hd
    have hlt : destination < h.params.length := list_lt_of_getElem? hdb
    have hst : source_text h s = some st := by
      simp only [source_text, hval]
      exact htext
    have htxt := deep_copy_parameter_text_eq hsb hdb hne (fun _ => by rw [hst]; rfl)
    simp only [hty, if_true, hst] at htxt
    have hfit : (CharArray.mk (strlen st + 1) (some st) 0).Fits := by
      show st.length + 1 ≤ strlen st + 1
      exact Nat.le_refl _
    refine ⟨_, h.chars.length, ⟨strlen st + 1, some st, 0⟩, htxt, ?_, by simp, rfl, rfl, rfl,
      hfit, ?_⟩
    · exact text_ptr_eq
        (o := { d with value0 := ParamValue.as_char (some h.chars.length) })
        (by simp [List.getElem?_set_self hlt, hty]) rfl
    · rw [load_string_eq (c := ⟨strlen st + 1, some st, 0⟩) (by simp) rfl hfit]

/-- C20, at the name `w` on the empty heap, and at the sample string parameter
named `t` with the text `hello`: the name buffers get 1 byte each for the 2
bytes written, the text buffer gets 6 bytes for the 6 bytes written.  The
heap `text_slots_heap` is the one the slots part leaves on `text_pair_heap`. -/
theorem name_buffers_one_byte_short_witness :
    ensure_parameter_alloc empty_heap (init_parameter_set demo_set) "w" =
      some ({ chars := [⟨1, none, 0⟩]
              params := [⟨{ init_obj with name := some 0 }, 0⟩]
              arrays := [⟨[some 0], 0⟩] },
            { num_parameters := 1, parameters := some 0, effect_properties := none }, 0) ∧
    ensure_parameter empty_heap (init_parameter_set demo_set) "w" = none ∧
    (∃ h1 hb, modify_param text_pair_heap 1 (fun o => { o with name := some 0 }) = some h1 ∧
      deep_copy_parameter_name_alloc h1 1 0 = some hb ∧
      hb.chars = [⟨2, some "t", 0⟩, ⟨6, some "hello", 0⟩, ⟨1, none, 0⟩] ∧
      deep_copy_parameter_name_strcpy hb 1 0 = none) ∧
    deep_copy_parameter text_pair_heap 1 0 = none ∧
    deep_copy_parameter_slots text_pair_heap 1 0 = some text_slots_heap ∧
    (∃ h1, deep_copy_parameter_text text_slots_heap 1 0 = some h1 ∧
      h1.chars = [⟨2, some "t", 0⟩, ⟨6, some "hello", 0⟩, ⟨6, some "hello", 0⟩]) := by
  obtain ⟨_, _, _, _, _, _, _, _, _, _, _, _, _, _, _, _, hens⟩ :=
    name_buffers_one_byte_short.1 empty_heap demo_set "w"
  obtain ⟨h1, hb, b, c, e1, e2, _, _, _, _, _, e5, e6⟩ :=
    name_buffers_one_byte_short.2.1 text_pair_heap 1 0
      { init_obj with type := ParamType.PARAM_TYPE_STRING
                      name := some 0
                      value0 := ParamValue.as_char (some 1) }
      init_obj 0 "t" (by decide) (by decide) (by decide) rfl (by decide)
  obtain ⟨k1, _, _, f1, _⟩ :=
    name_buffers_one_byte_short.2.2 text_slots_heap 1 0
      { init_obj with type := ParamType.PARAM_TYPE_STRING
                      name := some 0
                      value0 := ParamValue.as_char (some 1) }
      { init_obj with type := ParamType.PARAM_TYPE_STRING
                      value0 := ParamValue.as_char (some 1) }
      1 "hello" (by decide) (by decide) (by decide) rfl rfl (by decide)
  refine ⟨by decide, hens, ⟨h1, hb, e1, e2, ?_, e5⟩, e6, by decide, ⟨k1, f1, ?_⟩⟩
  · have h1v : modify_param text_pair_heap 1 (fun o => { o with name := some 0 }) =
        some { text_pair_heap with
          params := [⟨{ init_obj with type := ParamType.PARAM_TYPE_STRING
                                      name := some 0
                                      value0 := ParamValue.as_char (some 1) }, 0⟩,
                     ⟨{ init_obj with name := some 0 }, 0⟩] } := by decide
    rw [h1v] at e1
    have e1s := Option.some.inj e1
    subst e1s
    have hbv : deep_copy_parameter_name_alloc
        { text_pair_heap with
          params := [⟨{ init_obj with type := ParamType.PARAM_TYPE_STRING
                                      name := some 0
                                      value0 := ParamValue.as_char (some 1) }, 0⟩,
                     ⟨{ init_obj with name := some 0 }, 0⟩] } 1 0 =
        some { chars := [⟨2, some "t", 0⟩, ⟨6, some "hello", 0⟩, ⟨1, none, 0⟩]
               params := [⟨{ init_obj with type := ParamType.PARAM_TYPE_STRING
                                           name := some 0
                                           value0 := ParamValue.as_char (some 1) }, 0⟩,
                          ⟨{ init_obj with name := some 2 }, 0⟩]
               arrays := [⟨[some 0], 0⟩] } := by decide
    rw [hbv] at e2
    rw [← Option.some.inj e2]
  · have k1v : deep_copy_parameter_text text_slots_heap 1 0 =
        some { chars := [⟨2, some "t", 0⟩, ⟨6, some "hello", 0⟩, ⟨6, some "hello", 0⟩]
               params := [⟨{ init_obj with type := ParamType.PARAM_TYPE_STRING
                                           name := some 0
                                           value0 := ParamValue.as_char (some 1) }, 0⟩,
                          ⟨{ init_obj with type := ParamType.PARAM_TYPE_STRING
                                           value0 := ParamValue.as_char (some 2) }, 0⟩]
               arrays := [⟨[some 0], 0⟩] } := by decide
    rw [k1v] at f1
    rw [← Option.some.inj f1]

end OpenMeshEffect
